import Mathlib

/-!
Verification development for the wabbajack-library-cleaner repository.

The Rust core is shallowly embedded: Rust `String`/`&str` values are
modelled as `List Char` (an ASCII-faithful model: `to_lowercase`,
`is_alphabetic`, and the byte-index arithmetic of the source coincide
with the character-level model on ASCII input), `u64`/`usize` as `Nat`
with results that never overflow in the source's domain, `i64` parsing
as arbitrary-precision parsing followed by an explicit 64-bit range
check, and `Option`/`Result` as `Option`/`Except`.  Filesystem state is
an explicit record threaded through the deletion functions.
-/

namespace WLC

/-- Rust string model: a list of characters (ASCII-faithful). -/
abbrev Str := List Char

/-- Character-wise lowercasing, modelling `str::to_lowercase` on ASCII text. -/
def toLowerStr (s : Str) : Str := s.map Char.toLower

/-- Splitting on a separator character, modelling `str::split(c)`.
`splitOnChar c ""` is `[""]`, as in Rust. -/
def splitOnChar (sep : Char) : Str → List Str
  | [] => [[]]
  | c :: cs =>
    match splitOnChar sep cs with
    | [] => [[c]]
    | t :: ts => if c = sep then [] :: t :: ts else (c :: t) :: ts

/-- Joining with a separator character, modelling `[&str]::join(sep)`. -/
def joinWith (sep : Char) : List Str → Str
  | [] => []
  | [p] => p
  | p :: ps => p ++ sep :: joinWith sep ps

/-- Substring test, modelling `str::contains(pat)`. -/
def containsSub (h p : Str) : Bool :=
  p.isPrefixOf h ||
    match h with
    | [] => false
    | _ :: t => containsSub t p

/-- Index of the first occurrence of a substring, modelling `str::find(pat)`. -/
def findSubIdx (h p : Str) : Option Nat :=
  if p.isPrefixOf h then some 0
  else
    match h with
    | [] => none
    | _ :: t => (findSubIdx t p).map (· + 1)

/-- Three-way character comparison by code point (= byte order on ASCII),
the order underlying Rust's `str::cmp`. -/
def charCmp (a b : Char) : Ordering := compare a.toNat b.toNat

/-- Three-way lexicographic string comparison, modelling `str::cmp`
(byte-lexicographic, which equals code-point order on UTF-8). -/
def strCmp : Str → Str → Ordering
  | [], [] => .eq
  | [], _ :: _ => .lt
  | _ :: _, [] => .gt
  | a :: as', b :: bs' =>
    match charCmp a b with
    | .eq => strCmp as' bs'
    | o => o

/-- Value of a string of decimal digits, most significant first. -/
def digitsVal (s : Str) : Nat :=
  s.foldl (fun a c => 10 * a + (c.toNat - '0'.toNat)) 0

/-- Modelling Rust `str::parse::<i64>()`: optional sign, then one or more
decimal digits, with the result required to fit in a signed 64-bit range. -/
def parseI64 (s : Str) : Option Int :=
  let core : Str → Option Int := fun ds =>
    if ds ≠ [] ∧ ds.all Char.isDigit then some (digitsVal ds) else none
  let v : Option Int :=
    match s with
    | '-' :: rest => (core rest).map (fun n => -n)
    | '+' :: rest => core rest
    | _ => core s
  match v with
  | some n => if -(2 ^ 63) ≤ n ∧ n ≤ 2 ^ 63 - 1 then some n else none
  | none => none

/-- Decimal digit string for a natural number (Rust `format!("{}", n)`). -/
def natStr (n : Nat) : Str := (toString n).data

/-- Decimal string of an `i64` value (Rust `i64::to_string`). -/
def intStr (n : Int) : Str := (toString n).data

/-! ## `core/types.rs` -/

/-- `types.rs`: a parsed mod file from the downloads folder. -/
structure ModFile where
  file_name : Str
  full_path : Str
  mod_name : Str
  mod_id : Str
  file_id : Option Str
  version : Str
  timestamp : Str
  size : Nat
  is_patch : Bool
  deriving Repr, DecidableEq, Inhabited

/-- `types.rs`: a group of mod versions (same mod, different versions). -/
structure ModGroup where
  mod_key : Str
  files : List ModFile
  newest_idx : Nat
  space_to_free : Nat
  deriving Repr, DecidableEq, Inhabited

/-- `types.rs`: information about a parsed `.wabbajack` modlist file.
The hash sets of the source are modelled as lists; only membership is
ever consulted.  (`used_file_names` is the literal-name set built by
`parse_wabbajack_file`.) -/
structure ModlistInfo where
  name : Str
  mod_count : Nat
  used_mod_keys : List Str
  used_mod_file_ids : List Str
  used_file_names : List Str
  deriving Repr, DecidableEq

/-- `types.rs`: a mod file not used by any active modlist. -/
structure OrphanedMod where
  file : ModFile
  deriving Repr, DecidableEq

/-- `types.rs`: `ARCHIVE_EXTENSIONS`. -/
def ARCHIVE_EXTENSIONS : List Str :=
  [".7z".data, ".zip".data, ".rar".data, ".tar".data, ".gz".data, ".exe".data]

/-- `types.rs`: result of the orphan scan. -/
structure ScanResult where
  used_mods : List ModFile
  orphaned_mods : List OrphanedMod
  used_size : Nat
  orphaned_size : Nat
  deriving Repr, DecidableEq

/-- `types.rs`: result of the old-version scan. -/
structure OldVersionScanResult where
  duplicates : List ModGroup
  total_files : Nat
  total_space : Nat
  deriving Repr, DecidableEq

/-- `types.rs`: result of a deletion batch. -/
structure DeletionResult where
  deleted_count : Nat
  space_freed : Nat
  skipped : List Str
  errors : List Str
  deriving Repr, DecidableEq

/-- `DeletionResult::default()`. -/
def DeletionResult.empty : DeletionResult :=
  { deleted_count := 0, space_freed := 0, skipped := [], errors := [] }

/-! ## `core/parser.rs` -/

/-- `parser.rs`: string of digits, optionally with one leading minus
(`strip_prefix('-')` is modelled as a head test, the same function). -/
def is_numeric (s : Str) : Bool :=
  if s = [] then false
  else
    let s' := if s.head? = some '-' then s.tail else s
    s' ≠ [] && s'.all Char.isDigit

/-- `parser.rs`: version-pattern test — lowercase, drop one leading `v`,
then every character must be a digit, `.`, `-` or `_`, with at least one
digit present. -/
def is_version_pattern (s : Str) : Bool :=
  let s := toLowerStr s
  let s := match s with
    | 'v' :: rest => rest
    | _ => s
  (s.all fun c => c.isDigit || c = '.' || c = '-' || c = '_') && s.any Char.isDigit

/-- `parser.rs`: normalize a mod name by dropping everything from the
first space-separated token that looks like a version pattern; if nothing
survives, the name is returned unmodified. -/
def normalize_mod_name (mod_name : Str) : Str :=
  let parts := splitOnChar ' ' mod_name
  let clean_parts := parts.takeWhile fun p => !is_version_pattern p
  if clean_parts = [] then mod_name else joinWith ' ' clean_parts

/-- `parser.rs`: patch/hotfix/update/fix keyword test. -/
def is_patch_or_hotfix (filename : Str) : Bool :=
  let lower := toLowerStr filename
  let patch_keywords : List Str :=
    ["patch".data, "hotfix".data, "update".data, "fix".data, "- patch".data,
     "-patch".data, " patch".data, "- hotfix".data, "-hotfix".data,
     " hotfix".data, "- update".data, "-update".data, " update".data,
     "- fix".data, "-fix".data, " fix".data]
  patch_keywords.any fun kw => containsSub lower kw

/-- `parser.rs`: main/full/complete keyword test. -/
def is_full_or_main_file (filename : Str) : Bool :=
  let lower := toLowerStr filename
  let full_keywords : List Str :=
    ["main".data, "full".data, "complete".data, "- main".data, "-main".data,
     " main".data]
  full_keywords.any fun kw => containsSub lower kw

/-- First `some` produced by `f` along the list (models an early-return
loop). -/
def firstSome {α β : Type} (f : α → Option β) : List α → Option β
  | [] => none
  | a :: t =>
    match f a with
    | some b => some b
    | none => firstSome f t

/-- `parser.rs` `extract_part_indicator`, dashed-number family for one
`i`: locate the first occurrence of `"-{i}-"`; reject it (and move on to
the next `i`) when the preceding character is alphanumeric or the
following character is another digit. -/
def partIndicatorDash (lower : Str) (i : Nat) : Option Str :=
  let pat : Str := '-' :: natStr i ++ ['-']
  match findSubIdx lower pat with
  | none => none
  | some idx =>
    let prevOk : Bool :=
      if 0 < idx then
        let prev := (lower.get? (idx - 1)).getD ' '
        !(prev.isAlpha || prev.isDigit)
      else true
    if prevOk then
      let after_idx := idx + pat.length
      if after_idx < lower.length then
        let next := (lower.get? after_idx).getD ' '
        if !next.isDigit then some pat else none
      else some pat
    else none

/-- `parser.rs` `extract_part_indicator`, textual family for one `i`:
`"part {i}"`, `"part{i}"`, `"(part {i})"`, `"pt{i}"`, `"pt {i}"`, mapped
to the marker `":part{i}"`. -/
def partIndicatorText (lower : Str) (i : Nat) : Option Str :=
  let n := natStr i
  let pats : List Str :=
    ["part ".data ++ n, "part".data ++ n,
     "(part ".data ++ n ++ ")".data, "pt".data ++ n, "pt ".data ++ n]
  if pats.any fun p => containsSub lower p then some (":part".data ++ n)
  else none

/-- `parser.rs`: extract a part indicator from a filename.  The dashed
family is tried for `i = 1..20` ascending, then the textual family for
`i = 20..1` descending. -/
def extract_part_indicator (filename : Str) : Option Str :=
  let lower := toLowerStr filename
  match firstSome (partIndicatorDash lower) ((List.range 20).map (· + 1)) with
  | some pat => some pat
  | none => firstSome (partIndicatorText lower) (((List.range 20).map (· + 1)).reverse)

/-- `parser.rs`: valid archive extension test. -/
def has_valid_archive_extension (filename : Str) : Bool :=
  let lower := toLowerStr filename
  ARCHIVE_EXTENSIONS.any fun ext => ext.isSuffixOf lower

/-- `parser.rs`: candidate mod-archive filename test. -/
def is_wabbajack_file (filename : Str) : Bool :=
  if !has_valid_archive_extension filename then false
  else
    let lower := toLowerStr filename
    if containsSub lower ".part".data || containsSub lower ".tmp".data ||
        containsSub lower ".download".data ||
        (match lower with
         | '~' :: _ => true
         | _ => false) then
      false
    else true

/-- `parser.rs`: parse a mod filename into its components.  Mirrors the
source step for step: strip the first matching extension, split on `-`,
require ≥ 3 segments, require a ≥10-digit numeric final segment
(timestamp), find the first 3–6 digit numeric segment strictly between
position 0 and the timestamp (ModID), optionally take the immediately
following ≥4-digit numeric segment before the timestamp (FileID). -/
def parse_mod_filename (filename : Str) : Option ModFile :=
  match ARCHIVE_EXTENSIONS.find? fun ext => ext.isSuffixOf (toLowerStr filename) with
  | none => none
  | some ext =>
    let name_without_ext := filename.take (filename.length - ext.length)
    let parts := splitOnChar '-' name_without_ext
    if parts.length < 3 then none
    else
      match parts.getLast? with
      | none => none
      | some timestamp =>
        if !is_numeric timestamp || timestamp.length < 10 then none
        else
          let inner := (parts.take (parts.length - 1)).drop 1
          match inner.findIdx? fun part =>
              is_numeric part && 3 ≤ part.length && part.length ≤ 6 with
          | none => none
          | some j =>
            match inner.get? j with
            | none => none
            | some mod_id =>
              let mod_id_index := j + 1
              let file_id : Option Str :=
                if mod_id_index + 1 < parts.length - 1 then
                  match parts.get? (mod_id_index + 1) with
                  | some next_part =>
                    if is_numeric next_part && 4 ≤ next_part.length then some next_part
                    else none
                  | none => none
                else none
              let file_id_index : Option Nat := file_id.map fun _ => mod_id_index + 1
              let mod_name := joinWith '-' (parts.take mod_id_index)
              let version_start := (file_id_index.map (· + 1)).getD (mod_id_index + 1)
              let version := joinWith '-'
                ((parts.drop version_start).take (parts.length - 1 - version_start))
              some { file_name := filename
                     full_path := []
                     mod_name := mod_name
                     mod_id := mod_id
                     file_id := file_id
                     version := version
                     timestamp := timestamp
                     size := 0
                     is_patch := is_patch_or_hotfix filename }

/-! ## `core/scanner.rs` -/

/-- `scanner.rs` `detect_orphaned_mods`: union the identity sets of all
active modlists, then partition the files. A file is used when its
`"{mod_id}-{file_id}"` compound key (if it has a `file_id`) is in the
compound union, or, falling back, when its `mod_id` is in the id-only
union.  The parallel `partition_map` of the source is order-independent
per side; this model is its sequential linearization. -/
def detect_orphaned_mods (mod_files : List ModFile)
    (active_modlists : List ModlistInfo) : ScanResult :=
  let used_mod_ids := (active_modlists.map (·.used_mod_keys)).flatten
  let used_mod_file_ids := (active_modlists.map (·.used_mod_file_ids)).flatten
  let isUsed : ModFile → Bool := fun mod_file =>
    (match mod_file.file_id with
     | some file_id => used_mod_file_ids.contains (mod_file.mod_id ++ '-' :: file_id)
     | none => false) ||
    used_mod_ids.contains mod_file.mod_id
  let used_mods := mod_files.filter isUsed
  let orphaned_mods := (mod_files.filter fun f => !isUsed f).map OrphanedMod.mk
  { used_mods := used_mods
    orphaned_mods := orphaned_mods
    used_size := (used_mods.map (·.size)).sum
    orphaned_size := (orphaned_mods.map (·.file.size)).sum }

/-- `scanner.rs`: the fixed descriptor vocabulary of
`has_conflicting_descriptors`. -/
def all_descriptors : List Str :=
  [" 1k".data, " 2k".data, " 4k".data, " 8k".data,
   "-1k".data, "-2k".data, "-4k".data, "-8k".data,
   "cbbe".data, "uunp".data, "bhunp".data, "vanilla body".data, "bodyslide".data,
   " armor".data, " weapon".data, " clothes".data, " clothing".data, " hair".data,
   " gloves".data, " boots".data, " helmet".data, " meshes".data, " textures".data,
   "-armor".data, "-weapon".data, "-clothes".data, "-hair".data, "-gloves".data,
   " esp ".data, " esm ".data, " esl ".data, "esp-fe".data, "esp only".data,
   "esm only".data, "loose files".data, " bsa".data,
   " compat".data, "compatibility".data, " aslal".data, "no worldspace".data,
   "worldspace edit".data, " performance".data,
   " lite".data, " light".data, " full".data, " extended".data, " complete".data,
   " basic".data, " standard".data, " deluxe".data,
   " clean".data, " dirty".data, " gross".data,
   " optional".data, " addon".data, " add-on".data, " expansion".data]

/-- `scanner.rs` `has_conflicting_descriptors`: descriptor sets of the two
lowercased filenames are asymmetric (one empty, one not) or disjoint. -/
def has_conflicting_descriptors (filename1 filename2 : Str) : Bool :=
  let lower1 := toLowerStr filename1
  let lower2 := toLowerStr filename2
  let descriptors1 := all_descriptors.filter fun d => containsSub lower1 d
  let descriptors2 := all_descriptors.filter fun d => containsSub lower2 d
  if (descriptors1.isEmpty != descriptors2.isEmpty) &&
      (!descriptors1.isEmpty || !descriptors2.isEmpty) then true
  else if !descriptors1.isEmpty && !descriptors2.isEmpty then
    !(descriptors1.any fun d1 => descriptors2.contains d1)
  else false

/-- Exact-arithmetic model of `!(0.1..=10.0).contains(&(a as f64 / b as f64))`
from `has_suspicious_version_pattern`.  `0/0` is NaN, which the range test
rejects, hence suspicious; otherwise the quotient lies outside the band
exactly when `10*a < b` or `10*b < a`.  (The source computes the quotient
in `f64`; this is exact except within one ulp of the band edges for sizes
beyond 2^53, far outside the file sizes the tool handles.) -/
def sizeRatioOutside (a b : Nat) : Bool :=
  if a = 0 && b = 0 then true
  else !(b ≤ 10 * a && a ≤ 10 * b)

/-- One pair check of `has_suspicious_version_pattern`: identical versions
with a size ratio outside `[0.1, 10]`, or identical versions uploaded less
than 3600 seconds apart (only when both timestamps parse as `i64`), or
conflicting descriptors. -/
def suspiciousPair (file1 file2 : ModFile) : Bool :=
  (if file1.version = file2.version then
    if sizeRatioOutside file1.size file2.size then true
    else
      match parseI64 file1.timestamp, parseI64 file2.timestamp with
      | some ts1, some ts2 => (ts2 - ts1).natAbs < 3600
      | _, _ => false
   else false) ||
  has_conflicting_descriptors file1.file_name file2.file_name

/-- All ordered pairs `(l[i], l[j])` with `i < j`, in the iteration order
of the source's double loop. -/
def orderedPairs {α : Type} : List α → List (α × α)
  | [] => []
  | x :: xs => (xs.map fun y => (x, y)) ++ orderedPairs xs

/-- `scanner.rs` `has_suspicious_version_pattern`: some pair of group
members trips `suspiciousPair`. -/
def has_suspicious_version_pattern (group : ModGroup) : Bool :=
  if group.files.length < 2 then false
  else (orderedPairs group.files).any fun p => suspiciousPair p.1 p.2

/-- The comparator of `scan_folder_for_duplicates`' sort: timestamp
(string comparison), ties broken by version (string comparison). -/
def fileCmp (a b : ModFile) : Ordering :=
  match strCmp a.timestamp b.timestamp with
  | .eq => strCmp a.version b.version
  | o => o

/-- Non-strict order induced by `fileCmp` (`cmp(a,b) != Greater`). -/
def fileLe (a b : ModFile) : Prop := fileCmp a b ≠ .gt

instance : DecidableRel fileLe := fun a b => by
  unfold fileLe; infer_instance

/-- One directory entry presented to `scan_folder_for_duplicates`:
its file name, whether it is a directory, and its metadata size. -/
structure DirEntry where
  name : Str
  is_dir : Bool
  size : Nat
  deriving Repr, DecidableEq

/-- Insert a parsed file into the group keyed `key`, creating the group at
the end on first sight (the `HashMap::entry(..).or_insert_with(..)` step;
groups are kept in first-insertion order, one valid linearization of the
source's unordered map). -/
def addToGroup : List ModGroup → Str → ModFile → List ModGroup
  | [], key, mf => [{ mod_key := key, files := [mf], newest_idx := 0, space_to_free := 0 }]
  | g :: gs, key, mf =>
    if g.mod_key = key then { g with files := g.files ++ [mf] } :: gs
    else g :: addToGroup gs key mf

/-- The per-entry step of `scan_folder_for_duplicates`' collection loop:
skip directories, count non-archives and unparsable names as skipped,
otherwise attach path/size and insert under the key
`"{mod_id}:{normalized name}{part indicator}"`. -/
def scanStep (acc : List ModGroup × Nat) (entry : DirEntry) : List ModGroup × Nat :=
  let (groups, skipped) := acc
  if entry.is_dir then (groups, skipped)
  else if !is_wabbajack_file entry.name then (groups, skipped + 1)
  else
    match parse_mod_filename entry.name with
    | none => (groups, skipped + 1)
    | some mf0 =>
      let mod_file := { mf0 with full_path := entry.name, size := entry.size }
      let normalized_name := normalize_mod_name mod_file.mod_name
      let part_indicator :=
        ((extract_part_indicator mod_file.file_name).orElse
          fun _ => extract_part_indicator mod_file.mod_name).getD []
      let mod_key := mod_file.mod_id ++ ':' :: normalized_name ++ part_indicator
      (addToGroup groups mod_key mod_file, skipped)

/-- The per-group pipeline of `scan_folder_for_duplicates`: drop singleton
groups and groups with a single distinct timestamp; sort by (timestamp,
version) string order (a stable sort, as Rust's `sort_by`); drop groups
with a suspicious version pattern, with patch and main files coexisting,
or whose newest member is a patch smaller than a tenth of some older
member; otherwise keep the newest (last) member and sum the rest. -/
def processGroup (group : ModGroup) : Option ModGroup :=
  if group.files.length ≤ 1 then none
  else if ((group.files.map (·.timestamp)).dedup).length ≤ 1 then none
  else
    let g : ModGroup := { group with files := List.insertionSort fileLe group.files }
    if has_suspicious_version_pattern g then none
    else
      let has_patch := g.files.any (·.is_patch)
      let has_main := g.files.any fun f => is_full_or_main_file f.file_name
      if has_patch && has_main then none
      else
        let skip_patch :=
          match g.files.getLast? with
          | some newest =>
            newest.is_patch && decide (1 < g.files.length) &&
              ((g.files.take (g.files.length - 1)).any fun old => 10 * newest.size < old.size)
          | none => false
        if skip_patch then none
        else
          some { g with
                 newest_idx := g.files.length - 1
                 space_to_free := ((g.files.take (g.files.length - 1)).map (·.size)).sum }

/-- `scanner.rs` `scan_folder_for_duplicates` over the entries of one
folder. -/
def scan_folder_for_duplicates (entries : List DirEntry) : OldVersionScanResult :=
  let mod_groups := (entries.foldl scanStep ([], 0)).1
  let duplicates := mod_groups.filterMap processGroup
  { duplicates := duplicates
    total_files := (duplicates.map fun g => g.files.length - 1).sum
    total_space := (duplicates.map (·.space_to_free)).sum }

/-! ## Manifest ingestion (`core/parser.rs`, `parse_wabbajack_file`) -/

/-- `parser.rs`: the decoded `State` object of one manifest archive entry
(fields not read by the set-building loop are omitted). -/
structure ModlistModState where
  mod_id : Option Int
  file_id : Option Int
  deriving Repr, DecidableEq

/-- `parser.rs`: one decoded element of the manifest's `Archives` array. -/
structure ModlistArchive where
  name : Option Str
  state : ModlistModState
  deriving Repr, DecidableEq

/-- `parser.rs`: the decoded `modlist` JSON descriptor. -/
structure Modlist where
  name : Str
  archives : List ModlistArchive
  deriving Repr, DecidableEq

/-- The set-building loop of `parse_wabbajack_file`: per archive, insert a
non-empty `Name` into the literal-name set; insert `ModID.to_string()`
into the id-only set when `ModID > 0`, and additionally
`"{ModID}-{FileID}"` into the compound set when also `FileID > 0`.
Hash sets are modelled as lists (membership is all that is consulted). -/
def usedSetsOf : List ModlistArchive → List Str × List Str × List Str
  | [] => ([], [], [])
  | arch :: rest =>
    let prev := usedSetsOf rest
    let names :=
      match arch.name with
      | some n => if n ≠ [] then n :: prev.2.2 else prev.2.2
      | none => prev.2.2
    match arch.state.mod_id with
    | some mod_id =>
      if 0 < mod_id then
        match arch.state.file_id with
        | some file_id =>
          if 0 < file_id then
            (intStr mod_id :: prev.1,
             (intStr mod_id ++ '-' :: intStr file_id) :: prev.2.1, names)
          else (intStr mod_id :: prev.1, prev.2.1, names)
        | none => (intStr mod_id :: prev.1, prev.2.1, names)
      else (prev.1, prev.2.1, names)
    | none => (prev.1, prev.2.1, names)

/-- `parse_wabbajack_file` after container/JSON decoding (the I/O and
JSON-shape failures are the `ParseError` cases of the source and precede
this pure core): derive the three identity sets and the counts. -/
def parse_wabbajack_core (modlist : Modlist) : ModlistInfo :=
  let sets := usedSetsOf modlist.archives
  { name := modlist.name
    mod_count := modlist.archives.length
    used_mod_keys := sets.1
    used_mod_file_ids := sets.2.1
    used_file_names := sets.2.2 }

/-! ## `core/cleaner.rs`

Filesystem state is explicit: the set of existing file paths, which of
them are open elsewhere (locked), and oracles for the environmental
failures of `rename`, `remove_file` and `create_dir_all` (permissions,
cross-device moves, …).  Paths are plain strings; `Path::join` appends
with a `/`. -/

structure FS where
  files : List Str
  locked : List Str
  renameFails : List Str
  removeFails : List Str
  mkdirFails : List Str
  dirs : List Str
  deriving Repr, DecidableEq

/-- `Path::join`. -/
def pathJoin (dir name : Str) : Str := dir ++ '/' :: name

/-- `cleaner.rs` `is_file_locked`: a read+write open fails — in
particular when the file does not exist or is held open elsewhere. -/
def is_file_locked (fs : FS) (path : Str) : Bool :=
  !(fs.files.contains path) || fs.locked.contains path

/-- `fs::rename(src, dst)`: fails when `src` is missing or the failure
oracle names it; on success `src` is gone and `dst` exists (an existing
`dst` is overwritten). -/
def fsRename (fs : FS) (src dst : Str) : FS × Bool :=
  if fs.files.contains src && !(fs.renameFails.contains src) then
    ({ fs with files := dst :: fs.files.filter (· ≠ src) }, true)
  else (fs, false)

/-- `fs::remove_file(path)`. -/
def fsRemove (fs : FS) (path : Str) : FS × Bool :=
  if fs.files.contains path && !(fs.removeFails.contains path) then
    ({ fs with files := fs.files.filter (· ≠ path) }, true)
  else (fs, false)

/-- Error strings of `cleaner.rs` (the interpolated `io::Error` text is
abstracted to the path; only presence and count of messages matter). -/
def errNoLongerExists (path : Str) : Str := "File no longer exists: ".data ++ path

def errLocked (path : Str) : Str := "File is locked: ".data ++ path

def errMoveFailed (path : Str) : Str := "Failed to move file: ".data ++ path

def errDeleteFailed (path : Str) : Str := "Failed to delete file: ".data ++ path

def errMkdir (backup : Str) : Str := "Failed to create backup folder: ".data ++ backup

def errSafety (name : Str) : Str := "Safety check failed for: ".data ++ name

/-- `cleaner.rs` `delete_mod_file`: existence check, lock check, then
either a move into the backup directory (with a best-effort move of the
`.meta` sidecar whose failure is swallowed) or a permanent delete (with a
best-effort delete of the sidecar). Returns the freed size. -/
def delete_mod_file (fs : FS) (file : ModFile) (backup_dir : Option Str) :
    FS × Except Str Nat :=
  let path := file.full_path
  if !(fs.files.contains path) then (fs, .error (errNoLongerExists path))
  else if is_file_locked fs path then (fs, .error (errLocked path))
  else
    match backup_dir with
    | some backup =>
      let backup_path := pathJoin backup file.file_name
      let r := fsRename fs path backup_path
      if r.2 then
        let fs1 := r.1
        let meta_path := path ++ ".meta".data
        if fs1.files.contains meta_path then
          let backup_meta := pathJoin backup (file.file_name ++ ".meta".data)
          ((fsRename fs1 meta_path backup_meta).1, .ok file.size)
        else (fs1, .ok file.size)
      else (r.1, .error (errMoveFailed path))
    | none =>
      let r := fsRemove fs path
      if r.2 then
        let fs1 := r.1
        let meta_path := path ++ ".meta".data
        if fs1.files.contains meta_path then
          ((fsRemove fs1 meta_path).1, .ok file.size)
        else (fs1, .ok file.size)
      else (r.1, .error (errDeleteFailed path))

/-- The per-file loop of `delete_orphaned_mods`, with the progress
observer's invocations recorded as a list of `(processed, total)` pairs.
A recursive reformulation of the source's accumulating `for` loop; it
computes the identical counts, sums and list contents (appends become
conses on the recursive result, preserving order). -/
def orphansLoop (backup_dir : Option Str) (total : Nat) :
    Nat → FS → List OrphanedMod → FS × DeletionResult × List (Nat × Nat)
  | _, fs, [] => (fs, DeletionResult.empty, [])
  | i, fs, orphaned :: rest =>
    match delete_mod_file fs orphaned.file backup_dir with
    | (fs1, .ok size) =>
      let r := orphansLoop backup_dir total (i + 1) fs1 rest
      (r.1, { r.2.1 with deleted_count := r.2.1.deleted_count + 1,
                         space_freed := r.2.1.space_freed + size },
       (i + 1, total) :: r.2.2)
    | (fs1, .error e) =>
      let r := orphansLoop backup_dir total (i + 1) fs1 rest
      (r.1, { r.2.1 with skipped := orphaned.file.file_name :: r.2.1.skipped,
                         errors := e :: r.2.1.errors },
       (i + 1, total) :: r.2.2)

/-- `cleaner.rs` `delete_orphaned_mods`: create the backup directory
first when one is requested — on failure, return immediately with a
single error — then run the per-file loop. -/
def delete_orphaned_mods (fs : FS) (orphaned_mods : List OrphanedMod)
    (backup_dir : Option Str) : FS × DeletionResult × List (Nat × Nat) :=
  let total := orphaned_mods.length
  match backup_dir with
  | some backup =>
    if fs.mkdirFails.contains backup then
      (fs, { DeletionResult.empty with errors := [errMkdir backup] }, [])
    else
      orphansLoop (some backup) total 0 { fs with dirs := backup :: fs.dirs }
        orphaned_mods
  | none => orphansLoop none total 0 fs orphaned_mods

/-- `cleaner.rs` `validate_deletion_safety`: for every group containing
this path, the path's position must precede the stored `newest_idx` and
the group's newest member must still exist on disk.  (The source indexes
`group.files[group.newest_idx]` unconditionally and would panic on an
out-of-range index; that branch is modelled as `false` and is unreachable
for the well-formed groups the scanner produces.) -/
def validate_deletion_safety (fs : FS) (duplicates : List ModGroup)
    (file : ModFile) : Bool :=
  duplicates.all fun group =>
    if group.files.length ≤ 1 then true
    else
      match group.files.findIdx? fun f => f.full_path == file.full_path with
      | none => true
      | some idx =>
        if group.newest_idx ≤ idx then false
        else
          match group.files.get? group.newest_idx with
          | some newest => fs.files.contains newest.full_path
          | none => false

/-- The per-file loop of `delete_old_versions`: re-validate each file
against the groups and the current disk state before deleting; a failed
validation or a failed deletion records the name and one message and the
loop continues. -/
def oldVersionsLoop (backup_dir : Option Str) (total : Nat)
    (duplicates : List ModGroup) :
    Nat → FS → List ModFile → FS × DeletionResult × List (Nat × Nat)
  | _, fs, [] => (fs, DeletionResult.empty, [])
  | i, fs, file :: rest =>
    if !validate_deletion_safety fs duplicates file then
      let r := oldVersionsLoop backup_dir total duplicates (i + 1) fs rest
      (r.1, { r.2.1 with skipped := file.file_name :: r.2.1.skipped,
                         errors := errSafety file.file_name :: r.2.1.errors },
       (i + 1, total) :: r.2.2)
    else
      match delete_mod_file fs file backup_dir with
      | (fs1, .ok size) =>
        let r := oldVersionsLoop backup_dir total duplicates (i + 1) fs1 rest
        (r.1, { r.2.1 with deleted_count := r.2.1.deleted_count + 1,
                           space_freed := r.2.1.space_freed + size },
         (i + 1, total) :: r.2.2)
      | (fs1, .error e) =>
        let r := oldVersionsLoop backup_dir total duplicates (i + 1) fs1 rest
        (r.1, { r.2.1 with skipped := file.file_name :: r.2.1.skipped,
                           errors := e :: r.2.1.errors },
         (i + 1, total) :: r.2.2)

/-- `cleaner.rs` `delete_old_versions`: flatten every group's
pre-`newest_idx` files, create the backup directory when requested (a
failure aborts with a single error), then run the loop. -/
def delete_old_versions (fs : FS) (duplicates : List ModGroup)
    (backup_dir : Option Str) : FS × DeletionResult × List (Nat × Nat) :=
  let files_to_delete := (duplicates.map fun g => g.files.take g.newest_idx).flatten
  let total := files_to_delete.length
  match backup_dir with
  | some backup =>
    if fs.mkdirFails.contains backup then
      (fs, { DeletionResult.empty with errors := [errMkdir backup] }, [])
    else
      oldVersionsLoop (some backup) total duplicates 0
        { fs with dirs := backup :: fs.dirs } files_to_delete
  | none => oldVersionsLoop none total duplicates 0 fs files_to_delete

/-! ## Lemmas about the string model -/

theorem charCmp_eq_eq {a b : Char} : charCmp a b = .eq ↔ a = b := by
  constructor
  · intro h
    simp only [charCmp, Nat.compare_eq_eq] at h
    simpa [Char.ext_iff, UInt32.ext_iff, Char.toNat] using h
  · rintro rfl
    simp [charCmp, Nat.compare_eq_eq]

theorem strCmp_eq_eq : ∀ (s t : Str), strCmp s t = .eq ↔ s = t
  | [], [] => by simp [strCmp]
  | [], _ :: _ => by simp [strCmp]
  | _ :: _, [] => by simp [strCmp]
  | a :: as', b :: bs' => by
    simp only [strCmp]
    cases h : charCmp a b with
    | eq =>
      have hab : a = b := charCmp_eq_eq.mp h
      simp [hab, strCmp_eq_eq as' bs']
    | lt =>
      have : a ≠ b := fun hab => by simp [hab, charCmp_eq_eq.mpr rfl] at h
      simp [this]
    | gt =>
      have : a ≠ b := fun hab => by simp [hab, charCmp_eq_eq.mpr rfl] at h
      simp [this]

theorem charCmp_swap (a b : Char) : (charCmp a b).swap = charCmp b a := by
  simp [charCmp, Nat.compare_swap]

theorem strCmp_swap : ∀ (s t : Str), (strCmp s t).swap = strCmp t s
  | [], [] => by simp [strCmp, Ordering.swap]
  | [], _ :: _ => by simp [strCmp, Ordering.swap]
  | _ :: _, [] => by simp [strCmp, Ordering.swap]
  | a :: as', b :: bs' => by
    simp only [strCmp]
    cases h : charCmp a b with
    | eq =>
      have h' : charCmp b a = .eq := by rw [← charCmp_swap a b, h]; rfl
      simp [h', strCmp_swap as' bs']
    | lt =>
      have h' : charCmp b a = .gt := by rw [← charCmp_swap a b, h]; rfl
      simp [h', Ordering.swap]
    | gt =>
      have h' : charCmp b a = .lt := by rw [← charCmp_swap a b, h]; rfl
      simp [h', Ordering.swap]

theorem charCmp_lt_iff {a b : Char} : charCmp a b = .lt ↔ a.toNat < b.toNat := by
  simp [charCmp, Nat.compare_eq_lt]

theorem strCmp_lt_trans : ∀ {s t u : Str},
    strCmp s t = .lt → strCmp t u = .lt → strCmp s u = .lt
  | [], t, u => by
    intro h1 h2
    cases u with
    | nil =>
      cases t with
      | nil => simp [strCmp] at h2
      | cons b bs => simp [strCmp] at h2
    | cons c cs => simp [strCmp]
  | _ :: _, [], _ => by intro h1 _; simp [strCmp] at h1
  | _ :: _, _ :: _, [] => by intro _ h2; simp [strCmp] at h2
  | a :: as', b :: bs', c :: cs' => by
    intro h1 h2
    simp only [strCmp] at h1 h2 ⊢
    cases hab : charCmp a b with
    | gt => rw [hab] at h1; exact absurd h1 (by simp)
    | lt =>
      cases hbc : charCmp b c with
      | gt => rw [hbc] at h2; exact absurd h2 (by simp)
      | lt =>
        have hac : charCmp a c = .lt :=
          charCmp_lt_iff.mpr (Nat.lt_trans (charCmp_lt_iff.mp hab) (charCmp_lt_iff.mp hbc))
        rw [hac]
      | eq =>
        have hb : b = c := charCmp_eq_eq.mp hbc
        rw [← hb, hab]
    | eq =>
      have ha : a = b := charCmp_eq_eq.mp hab
      rw [hab] at h1
      cases hbc : charCmp b c with
      | gt => rw [hbc] at h2; exact absurd h2 (by simp)
      | lt => rw [ha, hbc]
      | eq =>
        have hb : b = c := charCmp_eq_eq.mp hbc
        rw [hbc] at h2
        rw [ha, hb, charCmp_eq_eq.mpr rfl]
        exact strCmp_lt_trans (by simpa using h1) (by simpa using h2)

theorem fileCmp_swap (a b : ModFile) : (fileCmp a b).swap = fileCmp b a := by
  simp only [fileCmp]
  cases h : strCmp a.timestamp b.timestamp with
  | eq =>
    have h' : strCmp b.timestamp a.timestamp = .eq := by
      rw [← strCmp_swap a.timestamp b.timestamp, h]; rfl
    rw [h']
    exact strCmp_swap _ _
  | lt =>
    have h' : strCmp b.timestamp a.timestamp = .gt := by
      rw [← strCmp_swap a.timestamp b.timestamp, h]; rfl
    rw [h']
    rfl
  | gt =>
    have h' : strCmp b.timestamp a.timestamp = .lt := by
      rw [← strCmp_swap a.timestamp b.timestamp, h]; rfl
    rw [h']
    rfl

/-- The sort order of the claims' wording: ascending by timestamp string,
ties broken by version string. -/
def byTsThenVer (a b : ModFile) : Prop :=
  strCmp a.timestamp b.timestamp = .lt ∨
    (a.timestamp = b.timestamp ∧
      (strCmp a.version b.version = .lt ∨ a.version = b.version))

theorem fileLe_iff {a b : ModFile} : fileLe a b ↔ byTsThenVer a b := by
  unfold fileLe byTsThenVer fileCmp
  cases h : strCmp a.timestamp b.timestamp with
  | lt => simp
  | eq =>
    have hts : a.timestamp = b.timestamp := (strCmp_eq_eq _ _).mp h
    cases hv : strCmp a.version b.version with
    | lt => simp [hts]
    | eq => simp [hts, (strCmp_eq_eq _ _).mp hv]
    | gt =>
      have : a.version ≠ b.version := fun he => by
        rw [he, (strCmp_eq_eq _ _).mpr rfl] at hv; cases hv
      simp [hts, hv, this]
  | gt =>
    have : a.timestamp ≠ b.timestamp := fun he => by
      rw [he, (strCmp_eq_eq _ _).mpr rfl] at h; cases h
    simp [h, this]

instance : IsTotal ModFile fileLe where
  total a b := by
    by_cases h : fileCmp a b = .gt
    · right
      unfold fileLe
      rw [← fileCmp_swap a b, h]
      simp [Ordering.swap]
    · left
      exact h

instance : IsTrans ModFile fileLe where
  trans a b c hab hbc := by
    rw [fileLe_iff] at hab hbc ⊢
    rcases hab with h1 | ⟨h1, hv1⟩
    · rcases hbc with h2 | ⟨h2, _⟩
      · exact Or.inl (strCmp_lt_trans h1 h2)
      · exact Or.inl (h2 ▸ h1)
    · rcases hbc with h2 | ⟨h2, hv2⟩
      · exact Or.inl (h1 ▸ h2)
      · refine Or.inr ⟨h1.trans h2, ?_⟩
        rcases hv1 with hv1 | hv1
        · rcases hv2 with hv2 | hv2
          · exact Or.inl (strCmp_lt_trans hv1 hv2)
          · exact Or.inl (hv2 ▸ hv1)
        · rcases hv2 with hv2 | hv2
          · exact Or.inl (hv1 ▸ hv2)
          · exact Or.inr (hv1.trans hv2)

/-! ## Lemmas about splitting and joining -/

theorem splitOnChar_ne_nil (sep : Char) (s : Str) : splitOnChar sep s ≠ [] := by
  cases s with
  | nil => simp [splitOnChar]
  | cons c cs =>
    simp only [splitOnChar]
    cases splitOnChar sep cs with
    | nil => simp
    | cons t ts =>
      by_cases h : c = sep <;> simp [h]

theorem not_mem_of_mem_splitOnChar (sep : Char) :
    ∀ (s : Str), ∀ p ∈ splitOnChar sep s, sep ∉ p
  | [] => by intro p hp; simp [splitOnChar] at hp; simp [hp]
  | c :: cs => by
    intro p hp
    simp only [splitOnChar] at hp
    cases h : splitOnChar sep cs with
    | nil => exact absurd h (splitOnChar_ne_nil sep cs)
    | cons t ts =>
      rw [h] at hp
      by_cases hc : c = sep
      · subst hc
        simp only [if_pos rfl] at hp
        rcases List.mem_cons.mp hp with rfl | hp
        · simp
        · exact not_mem_of_mem_splitOnChar c cs p (h ▸ hp)
      · simp only [if_neg hc] at hp
        rcases List.mem_cons.mp hp with rfl | hp
        · intro hmem
          rcases List.mem_cons.mp hmem with rfl | hmem
          · exact hc rfl
          · exact not_mem_of_mem_splitOnChar sep cs t (h ▸ List.mem_cons_self t ts) hmem
        · exact not_mem_of_mem_splitOnChar sep cs p (h ▸ List.mem_cons_of_mem t hp)

theorem splitOnChar_of_not_mem {sep : Char} :
    ∀ {s : Str}, sep ∉ s → splitOnChar sep s = [s]
  | [], _ => rfl
  | c :: cs, h => by
    have hc : c ≠ sep := fun he => h (he ▸ List.mem_cons_self c cs)
    have hcs : sep ∉ cs := fun hm => h (List.mem_cons_of_mem c hm)
    simp only [splitOnChar, splitOnChar_of_not_mem hcs, if_neg hc]

theorem splitOnChar_append_sep {sep : Char} :
    ∀ {p : Str} (t : Str), sep ∉ p →
      splitOnChar sep (p ++ sep :: t) = p :: splitOnChar sep t
  | [], t, _ => by
    simp only [List.nil_append, splitOnChar]
    cases h : splitOnChar sep t with
    | nil => exact absurd h (splitOnChar_ne_nil sep t)
    | cons u us => simp
  | c :: cs, t, h => by
    have hc : c ≠ sep := fun he => h (he ▸ List.mem_cons_self c cs)
    have hcs : sep ∉ cs := fun hm => h (List.mem_cons_of_mem c hm)
    have ih := splitOnChar_append_sep t hcs
    simp only [List.cons_append, splitOnChar, List.append_eq, ih]
    simp [if_neg hc]

theorem splitOnChar_joinWith {sep : Char} :
    ∀ {parts : List Str}, parts ≠ [] → (∀ p ∈ parts, sep ∉ p) →
      splitOnChar sep (joinWith sep parts) = parts
  | [], hne, _ => absurd rfl hne
  | [p], _, h => by
    simp only [joinWith]
    exact splitOnChar_of_not_mem (h p (List.mem_cons_self p []))
  | p :: q :: rest, _, h => by
    have hp : sep ∉ p := h p (List.mem_cons_self _ _)
    have hrest : ∀ x ∈ q :: rest, sep ∉ x := fun x hx => h x (List.mem_cons_of_mem p hx)
    simp only [joinWith]
    rw [splitOnChar_append_sep _ hp,
      splitOnChar_joinWith (List.cons_ne_nil q rest) hrest]

/-! ## Generic helper lemmas -/

theorem pairwise_of_orderedPairs_false {α : Type} {P : α → α → Bool} :
    ∀ {l : List α}, (∀ p ∈ orderedPairs l, P p.1 p.2 = false) →
      l.Pairwise fun a b => P a b = false
  | [], _ => List.Pairwise.nil
  | x :: xs, h => by
    refine List.Pairwise.cons (fun y hy => ?_) (pairwise_of_orderedPairs_false fun p hp => ?_)
    · refine h (x, y) ?_
      show (x, y) ∈ orderedPairs (x :: xs)
      simp only [orderedPairs]
      exact List.mem_append_left _ (List.mem_map_of_mem _ hy)
    · refine h p ?_
      show p ∈ orderedPairs (x :: xs)
      simp only [orderedPairs]
      exact List.mem_append_right _ hp

theorem exists_ne_of_one_lt_dedup {l : List Str} (h : 2 ≤ l.dedup.length) :
    ∃ a ∈ l, ∃ b ∈ l, a ≠ b := by
  cases hd : l.dedup with
  | nil => rw [hd] at h; simp at h
  | cons x tail =>
    cases tail with
    | nil => rw [hd] at h; simp at h
    | cons y tail2 =>
      have hx : x ∈ l := List.mem_dedup.mp (by rw [hd]; exact List.mem_cons_self _ _)
      have hy : y ∈ l := List.mem_dedup.mp
        (by rw [hd]; exact List.mem_cons_of_mem x (List.mem_cons_self _ _))
      have hnd := l.nodup_dedup
      rw [hd] at hnd
      refine ⟨x, hx, y, hy, fun he => ?_⟩
      rcases List.pairwise_cons.mp hnd with ⟨hne, _⟩
      exact hne y (List.mem_cons_self _ _) he

theorem contains_iff_mem {α : Type} [BEq α] [LawfulBEq α] {l : List α} {a : α} :
    l.contains a = true ↔ a ∈ l :=
  List.elem_iff

/-! ## Claim C10 — idempotence and shape of `normalize_mod_name` -/

/-- C10: `normalize_mod_name` is idempotent, and its output is always
either the original string unchanged or the space-joined prefix of the
original's space-separated tokens preceding the first version token. -/
theorem normalize_mod_name_idempotent (s : Str) :
    normalize_mod_name (normalize_mod_name s) = normalize_mod_name s ∧
    (normalize_mod_name s = s ∨
      normalize_mod_name s =
        joinWith ' ' ((splitOnChar ' ' s).takeWhile fun p => !is_version_pattern p)) := by
  by_cases h : (splitOnChar ' ' s).takeWhile (fun p => !is_version_pattern p) = []
  · have h1 : normalize_mod_name s = s := by
      simp [normalize_mod_name, h]
    refine ⟨?_, Or.inl h1⟩
    simp only [h1]
  · have h1 : normalize_mod_name s =
        joinWith ' ' ((splitOnChar ' ' s).takeWhile fun p => !is_version_pattern p) := by
      simp only [normalize_mod_name, if_neg h]
    refine ⟨?_, Or.inr h1⟩
    rw [h1]
    have hsub : ∀ p ∈ (splitOnChar ' ' s).takeWhile (fun p => !is_version_pattern p),
        ' ' ∉ p := fun p hp =>
      not_mem_of_mem_splitOnChar ' ' s p (List.takeWhile_subset _ hp)
    have hsplit := splitOnChar_joinWith h hsub
    have hall : ∀ p ∈ (splitOnChar ' ' s).takeWhile (fun p => !is_version_pattern p),
        (!is_version_pattern p) = true := fun p hp =>
      List.mem_takeWhile_imp (p := fun q => !is_version_pattern q) hp
    have htake := List.takeWhile_eq_self_iff.mpr hall
    simp only [normalize_mod_name, hsplit, htake, if_neg h]

/-! ## Claim C1 — the orphan classification of `detect_orphaned_mods` -/

/-- The claim-side "used" predicate over the identity-set union `U` of
all active modlists: the file has a `file_id` and its
`"{mod_id}-{file_id}"` compound key is in `U.compound`, or its `mod_id`
is in `U.id_only`. -/
def SpecUsed (ms : List ModlistInfo) (f : ModFile) : Prop :=
  (∃ fid, f.file_id = some fid ∧
    (f.mod_id ++ '-' :: fid) ∈ (ms.map (·.used_mod_file_ids)).flatten) ∨
  f.mod_id ∈ (ms.map (·.used_mod_keys)).flatten

theorem isUsed_iff_SpecUsed (ms : List ModlistInfo) (f : ModFile) :
    ((match f.file_id with
      | some file_id =>
        ((ms.map (·.used_mod_file_ids)).flatten).contains (f.mod_id ++ '-' :: file_id)
      | none => false) ||
     ((ms.map (·.used_mod_keys)).flatten).contains f.mod_id) = true ↔
    SpecUsed ms f := by
  cases hf : f.file_id with
  | none => simp [SpecUsed, hf, contains_iff_mem]
  | some fid => simp [SpecUsed, hf, contains_iff_mem]

/-- C1: `detect_orphaned_mods` marks a file used exactly under
`SpecUsed`; every input file lands in exactly one of the used/orphaned
partitions; and the reported byte totals are the sums of sizes over the
respective partitions. -/
theorem detect_orphaned_mods_classification (mod_files : List ModFile)
    (ms : List ModlistInfo) :
    (∀ f ∈ mod_files,
      (f ∈ (detect_orphaned_mods mod_files ms).used_mods ↔ SpecUsed ms f)) ∧
    (∀ f ∈ mod_files,
      (f ∈ (detect_orphaned_mods mod_files ms).used_mods ∧
        OrphanedMod.mk f ∉ (detect_orphaned_mods mod_files ms).orphaned_mods) ∨
      (f ∉ (detect_orphaned_mods mod_files ms).used_mods ∧
        OrphanedMod.mk f ∈ (detect_orphaned_mods mod_files ms).orphaned_mods)) ∧
    (detect_orphaned_mods mod_files ms).used_size =
      (((detect_orphaned_mods mod_files ms).used_mods).map (·.size)).sum ∧
    (detect_orphaned_mods mod_files ms).orphaned_size =
      (((detect_orphaned_mods mod_files ms).orphaned_mods).map (·.file.size)).sum := by
  refine ⟨fun f hf => ?_, fun f hf => ?_, rfl, rfl⟩
  · simp only [detect_orphaned_mods, List.mem_filter]
    rw [← isUsed_iff_SpecUsed ms f]
    constructor
    · exact fun h => h.2
    · exact fun h => ⟨hf, h⟩
  · simp only [detect_orphaned_mods, List.mem_filter, List.mem_map,
      OrphanedMod.mk.injEq]
    cases hu : (match f.file_id with
        | some file_id =>
          ((ms.map (·.used_mod_file_ids)).flatten).contains (f.mod_id ++ '-' :: file_id)
        | none => false) ||
       ((ms.map (·.used_mod_keys)).flatten).contains f.mod_id with
    | true =>
      left
      refine ⟨⟨hf, rfl⟩, ?_⟩
      rintro ⟨a, ha, rfl⟩
      rw [hu] at ha
      simp at ha
    | false =>
      right
      constructor
      · intro hmem
        simp at hmem
      · exact ⟨f, ⟨hf, by rw [hu]; rfl⟩, rfl⟩

/-- Concrete fixtures for witnesses. -/
def mfW : ModFile :=
  { file_name := "mod1.7z".data, full_path := "d/mod1.7z".data,
    mod_name := "Mod1".data, mod_id := "123".data, file_id := none,
    version := "1.0".data, timestamp := "1234567890".data, size := 1000,
    is_patch := false }

def mlW : ModlistInfo :=
  { name := "T".data, mod_count := 1, used_mod_keys := ["123".data],
    used_mod_file_ids := [], used_file_names := [] }

theorem detect_orphaned_mods_classification_witness :
    mfW ∈ (detect_orphaned_mods [mfW] [mlW]).used_mods :=
  ((detect_orphaned_mods_classification [mfW] [mlW]).1 mfW
    (List.mem_cons_self _ _)).mpr (Or.inr (by decide))

/-! ## Claim C9 — failed backup-directory creation aborts the batch -/

/-- C9: when the backup directory cannot be created, both deletion entry
points return immediately: zero deletions, zero bytes, no skipped files,
exactly one error message, no progress-observer invocation, and an
untouched filesystem. -/
theorem delete_mkdir_failure_aborts (fs : FS) (orphans : List OrphanedMod)
    (dups : List ModGroup) (b : Str) (hb : b ∈ fs.mkdirFails) :
    delete_orphaned_mods fs orphans (some b) =
      (fs, { DeletionResult.empty with errors := [errMkdir b] }, []) ∧
    delete_old_versions fs dups (some b) =
      (fs, { DeletionResult.empty with errors := [errMkdir b] }, []) := by
  have hc : fs.mkdirFails.contains b = true := contains_iff_mem.mpr hb
  constructor
  · simp [delete_orphaned_mods, hb, hc]
  · simp [delete_old_versions, hb, hc]

def fsW : FS :=
  { files := ["d/mod1.7z".data], locked := [], renameFails := [],
    removeFails := [], mkdirFails := ["bak".data], dirs := [] }

theorem delete_mkdir_failure_aborts_witness :
    delete_orphaned_mods fsW [OrphanedMod.mk mfW] (some "bak".data) =
      (fsW, { DeletionResult.empty with errors := [errMkdir "bak".data] }, []) :=
  (delete_mkdir_failure_aborts fsW [OrphanedMod.mk mfW] [] "bak".data
    (by decide)).1

/-! ## Claim C6 — identity sets derived from a parsed manifest -/

theorem mem_usedSetsOf_keys : ∀ (l : List ModlistArchive) (s : Str),
    (s ∈ (usedSetsOf l).1 ↔
      ∃ a ∈ l, ∃ m, a.state.mod_id = some m ∧ 0 < m ∧ s = intStr m)
  | [], s => by simp [usedSetsOf]
  | arch :: rest, s => by
    have ih := mem_usedSetsOf_keys rest s
    rcases arch with ⟨nm, ⟨mid, fid⟩⟩
    simp only [usedSetsOf]
    cases mid with
    | none => simpa using ih
    | some m =>
      by_cases hm : 0 < m
      · cases fid with
        | none => simp [hm, ih]
        | some fi =>
          by_cases hf : 0 < fi
          · simp [hm, hf, ih]
          · simp [hm, hf, ih]
      · simp [hm, ih]

theorem mem_usedSetsOf_fileIds : ∀ (l : List ModlistArchive) (s : Str),
    (s ∈ (usedSetsOf l).2.1 ↔
      ∃ a ∈ l, ∃ m fi, a.state.mod_id = some m ∧ 0 < m ∧
        a.state.file_id = some fi ∧ 0 < fi ∧ s = intStr m ++ '-' :: intStr fi)
  | [], s => by simp [usedSetsOf]
  | arch :: rest, s => by
    have ih := mem_usedSetsOf_fileIds rest s
    rcases arch with ⟨nm, ⟨mid, fid⟩⟩
    simp only [usedSetsOf]
    cases mid with
    | none => simpa using ih
    | some m =>
      by_cases hm : 0 < m
      · cases fid with
        | none => simp [hm, ih]
        | some fi =>
          by_cases hf : 0 < fi
          · simp [hm, hf, ih]
          · simp [hm, hf, ih]
      · simp [hm, ih]

theorem usedSetsOf_cons_names (arch : ModlistArchive) (rest : List ModlistArchive) :
    (usedSetsOf (arch :: rest)).2.2 =
      match arch.name with
      | some n => if n ≠ [] then n :: (usedSetsOf rest).2.2 else (usedSetsOf rest).2.2
      | none => (usedSetsOf rest).2.2 := by
  rcases arch with ⟨nm, ⟨mid, fid⟩⟩
  simp only [usedSetsOf]
  cases mid with
  | none => rfl
  | some m =>
    by_cases hm : 0 < m
    · cases fid with
      | none => simp [hm]
      | some fi => by_cases hf : 0 < fi <;> simp [hm, hf]
    · simp [hm]

theorem mem_usedSetsOf_names : ∀ (l : List ModlistArchive) (a : ModlistArchive),
    a ∈ l → ∀ n, a.name = some n → n ≠ [] → n ∈ (usedSetsOf l).2.2
  | [], a, ha => absurd ha (List.not_mem_nil a)
  | arch :: rest, a, ha => by
    intro n hn hne
    rw [usedSetsOf_cons_names]
    rcases List.mem_cons.mp ha with rfl | hmem
    · rw [hn]
      simp [hne]
    · have hx := mem_usedSetsOf_names rest a hmem n hn hne
      cases harch : arch.name with
      | none => exact hx
      | some nm =>
        by_cases h0 : nm = []
        · simp [h0]
          exact hx
        · simp [h0]
          exact Or.inr hx

/-- C6: for a successfully parsed manifest, the id-only set contains
exactly the decimal strings of present-and-positive `ModID`s, the
compound set contains exactly `"{ModID}-{FileID}"` for archives where
both are present and positive, and every archive with a non-empty `Name`
has that name in the literal-name set. -/
theorem parse_wabbajack_identity_sets (modlist : Modlist) :
    (∀ s, s ∈ (parse_wabbajack_core modlist).used_mod_keys ↔
      ∃ a ∈ modlist.archives, ∃ m, a.state.mod_id = some m ∧ 0 < m ∧ s = intStr m) ∧
    (∀ s, s ∈ (parse_wabbajack_core modlist).used_mod_file_ids ↔
      ∃ a ∈ modlist.archives, ∃ m fi, a.state.mod_id = some m ∧ 0 < m ∧
        a.state.file_id = some fi ∧ 0 < fi ∧ s = intStr m ++ '-' :: intStr fi) ∧
    (∀ a ∈ modlist.archives, ∀ n, a.name = some n → n ≠ [] →
      n ∈ (parse_wabbajack_core modlist).used_file_names) :=
  ⟨fun s => mem_usedSetsOf_keys modlist.archives s,
   fun s => mem_usedSetsOf_fileIds modlist.archives s,
   fun a ha n hn hne => mem_usedSetsOf_names modlist.archives a ha n hn hne⟩

/-- Concrete manifest fixture. -/
def mlJ : Modlist :=
  { name := "L".data
    archives := [{ name := some "SkyUI_5_1-3863-5-1.7z".data
                   state := { mod_id := some 3863, file_id := some 30325 } },
                 { name := some "absent.7z".data
                   state := { mod_id := some (-2), file_id := some 4 } }] }

theorem parse_wabbajack_identity_sets_witness :
    "3863".data ∈ (parse_wabbajack_core mlJ).used_mod_keys :=
  ((parse_wabbajack_identity_sets mlJ).1 "3863".data).mpr
    ⟨{ name := some "SkyUI_5_1-3863-5-1.7z".data
       state := { mod_id := some 3863, file_id := some 30325 } },
     by decide, 3863, rfl, by decide, by decide⟩


/-! ## The per-group pipeline: inversion of `processGroup` -/

theorem processGroup_eq_some {g0 g : ModGroup} (h : processGroup g0 = some g) :
    g.files = List.insertionSort fileLe g0.files ∧
    g.newest_idx = g.files.length - 1 ∧
    2 ≤ g.files.length ∧
    2 ≤ ((g.files.map (·.timestamp)).dedup).length ∧
    has_suspicious_version_pattern g = false ∧
    g.space_to_free = ((g.files.take (g.files.length - 1)).map (·.size)).sum := by
  simp only [processGroup] at h
  split_ifs at h with h1 h2 h3 h4 h5
  injection h with h
  subst h
  have hperm := List.perm_insertionSort fileLe g0.files
  have hlen : (List.insertionSort fileLe g0.files).length = g0.files.length :=
    hperm.length_eq
  refine ⟨rfl, rfl, ?_, ?_, ?_, rfl⟩
  · simp only [hlen]
    omega
  · have hd : ((List.insertionSort fileLe g0.files).map (·.timestamp)).dedup.length =
        ((g0.files.map (·.timestamp)).dedup).length :=
      ((hperm.map (·.timestamp)).dedup).length_eq
    simp only [hd]
    omega
  · simpa using h3

theorem mem_duplicates {entries : List DirEntry} {g : ModGroup}
    (h : g ∈ (scan_folder_for_duplicates entries).duplicates) :
    ∃ g0, processGroup g0 = some g := by
  simp only [scan_folder_for_duplicates] at h
  rcases List.mem_filterMap.mp h with ⟨g0, _, hp⟩
  exact ⟨g0, hp⟩

/-! ## Claim C4 — groups returned by the duplicate scan -/

/-- C4: every returned group has at least two members and two members
with different timestamps, and the scan totals are exactly the sums over
the returned groups (excluded groups contribute nothing). -/
theorem scan_folder_group_invariants (entries : List DirEntry) :
    (∀ g ∈ (scan_folder_for_duplicates entries).duplicates,
      2 ≤ g.files.length ∧ ∃ a ∈ g.files, ∃ b ∈ g.files, a.timestamp ≠ b.timestamp) ∧
    (scan_folder_for_duplicates entries).total_files =
      (((scan_folder_for_duplicates entries).duplicates).map fun g =>
        g.files.length - 1).sum ∧
    (scan_folder_for_duplicates entries).total_space =
      (((scan_folder_for_duplicates entries).duplicates).map (·.space_to_free)).sum := by
  refine ⟨fun g hg => ?_, rfl, rfl⟩
  obtain ⟨g0, hp⟩ := mem_duplicates hg
  obtain ⟨_, _, hlen, hded, _, _⟩ := processGroup_eq_some hp
  refine ⟨hlen, ?_⟩
  obtain ⟨x, hx, y, hy, hxy⟩ := exists_ne_of_one_lt_dedup hded
  rcases List.mem_map.mp hx with ⟨a, ha, rfl⟩
  rcases List.mem_map.mp hy with ⟨b, hb, rfl⟩
  exact ⟨a, ha, b, hb, hxy⟩

/-- Two concrete folder entries forming one clean duplicate pair. -/
def entW1 : DirEntry := { name := "Mod-123-1-0-1111111111.7z".data, is_dir := false, size := 1000 }

def entW2 : DirEntry := { name := "Mod-123-2-0-2222222222.7z".data, is_dir := false, size := 1000 }

theorem scan_folder_group_invariants_witness :
    2 ≤ (((scan_folder_for_duplicates [entW1, entW2]).duplicates).headI).files.length :=
  ((scan_folder_group_invariants [entW1, entW2]).1 _ (by decide)).1


/-! ## Claim C2 — ordering of returned duplicate groups -/

/-- C2 (amended): members of every returned group are sorted ascending by
timestamp compared as strings (which agrees with numeric order for
equal-length timestamps), ties broken by version string, and
`newest_idx` is the last index. -/
theorem scan_folder_groups_sorted (entries : List DirEntry) :
    ∀ g ∈ (scan_folder_for_duplicates entries).duplicates,
      2 ≤ g.files.length →
        g.files.Sorted byTsThenVer ∧ g.newest_idx = g.files.length - 1 := by
  intro g hg _
  obtain ⟨g0, hp⟩ := mem_duplicates hg
  obtain ⟨hfiles, hidx, _, _, _, _⟩ := processGroup_eq_some hp
  refine ⟨?_, hidx⟩
  rw [hfiles]
  exact (List.sorted_insertionSort fileLe g0.files).imp fun h => fileLe_iff.mp h

theorem scan_folder_groups_sorted_witness :
    (((scan_folder_for_duplicates [entW1, entW2]).duplicates).headI).newest_idx =
      (((scan_folder_for_duplicates [entW1, entW2]).duplicates).headI).files.length - 1 :=
  (scan_folder_groups_sorted [entW1, entW2] _ (by decide) (by decide)).2

/-- The numeric-ascending order asserted by the claim: timestamps
interpreted as integers, ties broken by lexicographic version. -/
def byNumTsThenVer (a b : ModFile) : Prop :=
  digitsVal a.timestamp < digitsVal b.timestamp ∨
    (digitsVal a.timestamp = digitsVal b.timestamp ∧
      (strCmp a.version b.version = .lt ∨ a.version = b.version))

instance : DecidableRel byNumTsThenVer := fun a b => by
  unfold byNumTsThenVer; infer_instance

def entN1 : DirEntry :=
  { name := "Mod-123-1-0-9999999999.7z".data, is_dir := false, size := 1000 }

def entN2 : DirEntry :=
  { name := "Mod-123-2-0-10000000000.7z".data, is_dir := false, size := 1000 }

/-- C2 counterexample: with a 10-digit and an 11-digit timestamp in one
group, the code's string sort places the numerically larger timestamp
first, so the returned group is not ascending by timestamp as an
integer. -/
theorem scan_folder_numeric_sort_counterexample :
    ∃ g ∈ (scan_folder_for_duplicates [entN1, entN2]).duplicates,
      2 ≤ g.files.length ∧ ¬ g.files.Sorted byNumTsThenVer := by decide

/-! ## Claim C3 — the suspicious same-version safety gate -/

/-- The claim's suspicious-pair condition: identical version strings and
(size ratio larger/smaller exceeding 10, or timestamps that parse as
signed 64-bit integers less than 3600 apart). -/
def SuspectPair (f1 f2 : ModFile) : Prop :=
  f1.version = f2.version ∧
    (10 * min f1.size f2.size < max f1.size f2.size ∨
      ∃ t1 t2 : Int, parseI64 f1.timestamp = some t1 ∧
        parseI64 f2.timestamp = some t2 ∧ (t2 - t1).natAbs < 3600)

theorem sizeRatioOutside_of_ratio {a b : Nat} (h : 10 * min a b < max a b) :
    sizeRatioOutside a b = true := by
  unfold sizeRatioOutside
  split_ifs with h0
  · rfl
  · have h' : 10 * a < b ∨ 10 * b < a := by
      rcases Nat.le_total a b with hab | hab
      · rw [Nat.min_eq_left hab, Nat.max_eq_right hab] at h
        omega
      · rw [Nat.min_eq_right hab, Nat.max_eq_left hab] at h
        omega
    rcases h' with h' | h'
    · simp [show ¬(b ≤ 10 * a) by omega]
    · simp [show ¬(a ≤ 10 * b) by omega]

theorem suspiciousPair_of_SuspectPair {f1 f2 : ModFile} (h : SuspectPair f1 f2) :
    suspiciousPair f1 f2 = true := by
  obtain ⟨hv, hrest⟩ := h
  unfold suspiciousPair
  apply Bool.or_eq_true_iff.mpr
  left
  rw [if_pos hv]
  rcases hrest with hsize | ⟨t1, t2, hp1, hp2, hd⟩
  · rw [if_pos (sizeRatioOutside_of_ratio hsize)]
  · by_cases hs : sizeRatioOutside f1.size f2.size = true
    · rw [if_pos hs]
    · rw [if_neg hs, hp1, hp2]
      simp [hd]

/-- C3 (amended): no returned group contains two members with identical
versions whose size ratio exceeds 10 or whose timestamps both parse as
`i64` and differ by less than 3600 — any candidate group with such a
pair is dropped whole, so none of its members becomes a deletion
candidate.  (Timestamps that overflow `i64` skip the closeness check;
see the counterexample.) -/
theorem scan_folder_no_suspect_pair (entries : List DirEntry) :
    ∀ g ∈ (scan_folder_for_duplicates entries).duplicates,
      g.files.Pairwise fun f1 f2 => ¬ SuspectPair f1 f2 := by
  intro g hg
  obtain ⟨g0, hp⟩ := mem_duplicates hg
  obtain ⟨_, _, hlen, _, hsusp, _⟩ := processGroup_eq_some hp
  unfold has_suspicious_version_pattern at hsusp
  rw [if_neg (show ¬ g.files.length < 2 by omega)] at hsusp
  rw [List.any_eq_false] at hsusp
  have hall : ∀ p ∈ orderedPairs g.files, suspiciousPair p.1 p.2 = false :=
    fun p hp' => Bool.eq_false_iff.mpr (hsusp p hp')
  exact (pairwise_of_orderedPairs_false hall).imp fun hfalse hs => by
    rw [suspiciousPair_of_SuspectPair hs] at hfalse
    cases hfalse

theorem scan_folder_no_suspect_pair_witness :
    (((scan_folder_for_duplicates [entW1, entW2]).duplicates).headI).files.Pairwise
      (fun f1 f2 => ¬ SuspectPair f1 f2) :=
  scan_folder_no_suspect_pair [entW1, entW2]
    (((scan_folder_for_duplicates [entW1, entW2]).duplicates).headI) (by decide)

def entO1 : DirEntry :=
  { name := "Mod-123-1-0-99999999999999999998.7z".data, is_dir := false, size := 1000 }

def entO2 : DirEntry :=
  { name := "Mod-123-1-0-99999999999999999999.7z".data, is_dir := false, size := 1000 }

/-- C3 counterexample: two files with identical version `"1-0"` and
20-digit timestamps differing by 1 second; `parse::<i64>()` overflows,
the closeness check is skipped, and the group survives with a deletion
candidate — the claim's exclusion does not happen. -/
theorem scan_folder_suspect_pair_counterexample :
    ∃ g ∈ (scan_folder_for_duplicates [entO1, entO2]).duplicates,
      ∃ f1 ∈ g.files, ∃ f2 ∈ g.files,
        f1.version = f2.version ∧ f1.timestamp ≠ f2.timestamp ∧
        ((digitsVal f1.timestamp : Int) - digitsVal f2.timestamp).natAbs < 3600 ∧
        g.files.take g.newest_idx ≠ [] := by decide


/-! ## Claim C5 — decomposition of accepted filenames -/

/-- The dash-separated segment list `parse_mod_filename` works over: the
filename with its first matching extension stripped, split on `-`
(empty when no extension matches, in which case the parse fails). -/
def strippedParts (filename : Str) : List Str :=
  match ARCHIVE_EXTENSIONS.find? fun ext => ext.isSuffixOf (toLowerStr filename) with
  | some ext => splitOnChar '-' (filename.take (filename.length - ext.length))
  | none => []

/-- Claim-side package-id segment: a pure decimal digit string of length
3 to 6. -/
def IdSeg (s : Str) : Prop :=
  s ≠ [] ∧ (∀ c ∈ s, c.isDigit = true) ∧ 3 ≤ s.length ∧ s.length ≤ 6

/-- Claim-side variant-id segment: numeric with length at least 4. -/
def VariantSeg (s : Str) : Bool :=
  !s.isEmpty && s.all Char.isDigit && 4 ≤ s.length

theorem is_numeric_no_dash {s : Str} (h : '-' ∉ s) :
    is_numeric s = true ↔ s ≠ [] ∧ ∀ c ∈ s, c.isDigit = true := by
  cases s with
  | nil => simp [is_numeric]
  | cons c cs =>
    have hc : c ≠ '-' := fun he => h (he ▸ List.mem_cons_self c cs)
    have hhead : (c :: cs : Str).head? = some c := rfl
    simp [is_numeric, hhead, hc, List.all_eq_true]

theorem idPred_iff_IdSeg {s : Str} (h : '-' ∉ s) :
    (is_numeric s && 3 ≤ s.length && s.length ≤ 6) = true ↔ IdSeg s := by
  rw [IdSeg]
  simp only [Bool.and_eq_true, decide_eq_true_eq, is_numeric_no_dash h]
  tauto

theorem variantPred_eq_VariantSeg {s : Str} (h : '-' ∉ s) :
    (is_numeric s && 4 ≤ s.length) = VariantSeg s := by
  rw [Bool.eq_iff_iff]
  simp only [VariantSeg, Bool.and_eq_true, decide_eq_true_eq, is_numeric_no_dash h,
    List.all_eq_true, Bool.not_eq_true', List.isEmpty_eq_false]


/-- C5: for every accepted filename, `mod_id` is the first segment
strictly after position 0 and before the timestamp that is a pure decimal
digit string of length 3–6; `file_id` is the immediately following
segment exactly when it precedes the timestamp, is numeric and has
length ≥ 4, else `none`; the final segment is the timestamp; and the
canonical example decomposes as stated. -/
theorem parse_mod_filename_decomposition :
    (∀ (f : Str) (mf : ModFile), parse_mod_filename f = some mf →
      (strippedParts f).getLast? = some mf.timestamp ∧
      ∃ j,
        (((strippedParts f).take ((strippedParts f).length - 1)).drop 1).get? j =
          some mf.mod_id ∧
        IdSeg mf.mod_id ∧
        (∀ k a, k < j →
          (((strippedParts f).take ((strippedParts f).length - 1)).drop 1).get? k =
            some a → ¬ IdSeg a) ∧
        mf.file_id =
          (match (((strippedParts f).take ((strippedParts f).length - 1)).drop 1).get?
              (j + 1) with
           | some a => if VariantSeg a then some a else none
           | none => none)) ∧
    parse_mod_filename "Skyrim 2020-12345-67890-1-0-1234567890.7z".data =
      some { file_name := "Skyrim 2020-12345-67890-1-0-1234567890.7z".data
             full_path := []
             mod_name := "Skyrim 2020".data
             mod_id := "12345".data
             file_id := some "67890".data
             version := "1-0".data
             timestamp := "1234567890".data
             size := 0
             is_patch := false } := by
  constructor
  · intro f mf hp
    unfold parse_mod_filename at hp
    cases hfind : ARCHIVE_EXTENSIONS.find? fun ext => ext.isSuffixOf (toLowerStr f) with
    | none =>
      simp only [hfind] at hp
      exact Option.noConfusion hp
    | some ext =>
      simp only [hfind] at hp
      have hparts : strippedParts f = splitOnChar '-' (f.take (f.length - ext.length)) := by
        simp only [strippedParts, hfind]
      rw [← hparts] at hp
      have hsplit : ∀ x ∈ strippedParts f, '-' ∉ x := by
        rw [hparts]
        exact not_mem_of_mem_splitOnChar '-' _
      split_ifs at hp with hlen3
      cases hlast : (strippedParts f).getLast? with
      | none =>
        simp only [hlast] at hp
        exact Option.noConfusion hp
      | some timestamp =>
        simp only [hlast] at hp
        split_ifs at hp with hts
        cases hidx : (((strippedParts f).take ((strippedParts f).length - 1)).drop 1).findIdx?
            (fun part => is_numeric part && 3 ≤ part.length && part.length ≤ 6) with
        | none =>
          simp only [hidx] at hp
          exact Option.noConfusion hp
        | some j =>
          simp only [hidx] at hp
          cases hget : (((strippedParts f).take ((strippedParts f).length - 1)).drop 1).get? j with
          | none =>
            simp only [hget] at hp
            exact Option.noConfusion hp
          | some mod_id =>
            simp only [hget] at hp
            injection hp with hp
            subst hp
            have hinlen : (((strippedParts f).take ((strippedParts f).length - 1)).drop 1).length =
                (strippedParts f).length - 2 := by
              rw [List.length_drop, List.length_take]
              omega
            have hmemOf : ∀ {k : Nat} {a : Str},
                (((strippedParts f).take ((strippedParts f).length - 1)).drop 1).get? k =
                  some a → a ∈ strippedParts f := fun hk =>
              List.take_subset _ _ (List.drop_subset _ _ (List.get?_mem hk))
            obtain ⟨hjlt, hpred, hmin⟩ := List.findIdx?_eq_some_iff_getElem.mp hidx
            have hgetj : (((strippedParts f).take ((strippedParts f).length - 1)).drop 1)[j] =
                mod_id := by
              have h1 := List.get?_eq_getElem?
                (((strippedParts f).take ((strippedParts f).length - 1)).drop 1) j
              rw [hget, List.getElem?_eq_getElem hjlt] at h1
              exact (Option.some.inj h1.symm)
            refine ⟨?_, j, ?_, ?_, ?_, ?_⟩
            · rfl
            · exact hget
            · rw [← idPred_iff_IdSeg (hsplit mod_id (hmemOf hget))]
              rw [← hgetj]
              exact hpred
            · intro k a hk hka hid
              have ha : (is_numeric a && 3 ≤ a.length && a.length ≤ 6) = true :=
                (idPred_iff_IdSeg (hsplit a (hmemOf hka))).mpr hid
              have hklt : k < (((strippedParts f).take ((strippedParts f).length - 1)).drop 1).length :=
                (List.get?_eq_some.mp hka).1
              have hgetk : (((strippedParts f).take ((strippedParts f).length - 1)).drop 1)[k] = a := by
                have h1 := List.get?_eq_getElem?
                  (((strippedParts f).take ((strippedParts f).length - 1)).drop 1) k
                rw [hka, List.getElem?_eq_getElem hklt] at h1
                exact (Option.some.inj h1.symm)
              exact hmin k hk (hgetk ▸ ha)
            · show (if j + 1 + 1 < (strippedParts f).length - 1 then _ else none) = _
              by_cases hc : j + 1 + 1 < (strippedParts f).length - 1
              · rw [if_pos hc]
                have hg2 : (((strippedParts f).take ((strippedParts f).length - 1)).drop 1).get?
                    (j + 1) = (strippedParts f).get? (j + 1 + 1) := by
                  rw [List.get?_drop]
                  have he : 1 + (j + 1) = j + 1 + 1 := by omega
                  rw [he]
                  exact List.get?_take (by omega)
                rw [hg2]
                cases hnext : (strippedParts f).get? (j + 1 + 1) with
                | none => simp
                | some a =>
                  simp only
                  rw [variantPred_eq_VariantSeg (hsplit a (List.get?_mem hnext))]
              · rw [if_neg hc]
                have hnone : (((strippedParts f).take ((strippedParts f).length - 1)).drop 1).get?
                    (j + 1) = none := by
                  rw [List.get?_eq_none, hinlen]
                  omega
                rw [hnone]
  · decide


/-- The canonical example's parse, as a fixture. -/
def mfEx : ModFile :=
  { file_name := "Skyrim 2020-12345-67890-1-0-1234567890.7z".data
    full_path := []
    mod_name := "Skyrim 2020".data
    mod_id := "12345".data
    file_id := some "67890".data
    version := "1-0".data
    timestamp := "1234567890".data
    size := 0
    is_patch := false }

theorem parse_mod_filename_decomposition_witness :
    (strippedParts "Skyrim 2020-12345-67890-1-0-1234567890.7z".data).getLast? =
      some mfEx.timestamp :=
  (parse_mod_filename_decomposition.1 "Skyrim 2020-12345-67890-1-0-1234567890.7z".data
    mfEx (by decide)).1


/-! ## Claim C7 — per-file outcome accumulation in the deletion loops -/

theorem delete_mod_file_ok_size {fs fs1 : FS} {file : ModFile} {b : Option Str}
    {n : Nat} (h : delete_mod_file fs file b = (fs1, .ok n)) : n = file.size := by
  simp only [delete_mod_file] at h
  repeat' split at h
  all_goals first
    | exact Except.noConfusion (congrArg Prod.snd h)
    | exact (Except.ok.inj (congrArg Prod.snd h)).symm

/-- Spec-side description of one orphan-deletion batch (§4.6 / §7):
files are processed front to back; a failing file appends its name to
`skipped` and one descriptive message to `errors` and the batch
continues; a successful deletion increments `deleted_count` and adds the
file's size to the bytes freed. -/
inductive OrphanBatch (backup_dir : Option Str) :
    FS → List OrphanedMod → FS × DeletionResult → Prop
  | nil (fs : FS) : OrphanBatch backup_dir fs [] (fs, DeletionResult.empty)
  | ok (fs fs2 : FS) (o : OrphanedMod) (rest : List OrphanedMod)
      (res : DeletionResult) :
      (delete_mod_file fs o.file backup_dir).2 = .ok o.file.size →
      OrphanBatch backup_dir (delete_mod_file fs o.file backup_dir).1 rest (fs2, res) →
      OrphanBatch backup_dir fs (o :: rest)
        (fs2, { res with deleted_count := res.deleted_count + 1,
                         space_freed := res.space_freed + o.file.size })
  | fail (fs fs2 : FS) (o : OrphanedMod) (rest : List OrphanedMod)
      (res : DeletionResult) (e : Str) :
      (delete_mod_file fs o.file backup_dir).2 = .error e →
      OrphanBatch backup_dir (delete_mod_file fs o.file backup_dir).1 rest (fs2, res) →
      OrphanBatch backup_dir fs (o :: rest)
        (fs2, { res with skipped := o.file.file_name :: res.skipped,
                         errors := e :: res.errors })

/-- Spec-side description of one old-version deletion batch: as
`OrphanBatch`, with a third outcome — a failed safety re-validation also
records the name and one message and continues. -/
inductive OldBatch (backup_dir : Option Str) (duplicates : List ModGroup) :
    FS → List ModFile → FS × DeletionResult → Prop
  | nil (fs : FS) : OldBatch backup_dir duplicates fs [] (fs, DeletionResult.empty)
  | guard (fs fs2 : FS) (file : ModFile) (rest : List ModFile)
      (res : DeletionResult) :
      validate_deletion_safety fs duplicates file = false →
      OldBatch backup_dir duplicates fs rest (fs2, res) →
      OldBatch backup_dir duplicates fs (file :: rest)
        (fs2, { res with skipped := file.file_name :: res.skipped,
                         errors := errSafety file.file_name :: res.errors })
  | ok (fs fs2 : FS) (file : ModFile) (rest : List ModFile)
      (res : DeletionResult) :
      validate_deletion_safety fs duplicates file = true →
      (delete_mod_file fs file backup_dir).2 = .ok file.size →
      OldBatch backup_dir duplicates (delete_mod_file fs file backup_dir).1 rest (fs2, res) →
      OldBatch backup_dir duplicates fs (file :: rest)
        (fs2, { res with deleted_count := res.deleted_count + 1,
                         space_freed := res.space_freed + file.size })
  | fail (fs fs2 : FS) (file : ModFile) (rest : List ModFile)
      (res : DeletionResult) (e : Str) :
      validate_deletion_safety fs duplicates file = true →
      (delete_mod_file fs file backup_dir).2 = .error e →
      OldBatch backup_dir duplicates (delete_mod_file fs file backup_dir).1 rest (fs2, res) →
      OldBatch backup_dir duplicates fs (file :: rest)
        (fs2, { res with skipped := file.file_name :: res.skipped,
                         errors := e :: res.errors })

theorem orphansLoop_spec (backup_dir : Option Str) (total : Nat) :
    ∀ (idx : Nat) (fs : FS) (orphans : List OrphanedMod),
      OrphanBatch backup_dir fs orphans
        ((orphansLoop backup_dir total idx fs orphans).1,
         (orphansLoop backup_dir total idx fs orphans).2.1) ∧
      (orphansLoop backup_dir total idx fs orphans).2.2 =
        (List.range' (idx + 1) orphans.length).map fun k => (k, total)
  | idx, fs, [] => by
    refine ⟨OrphanBatch.nil fs, ?_⟩
    simp [orphansLoop]
  | idx, fs, o :: rest => by
    simp only [orphansLoop]
    cases hd : delete_mod_file fs o.file backup_dir with
    | mk fs1 r =>
      have ih := orphansLoop_spec backup_dir total (idx + 1) fs1 rest
      cases r with
      | ok n =>
        have hn : n = o.file.size := delete_mod_file_ok_size hd
        subst hn
        refine ⟨?_, ?_⟩
        · exact OrphanBatch.ok fs _ o rest _ (by rw [hd]) (by rw [hd]; exact ih.1)
        · show (idx + 1, total) :: (orphansLoop backup_dir total (idx + 1) fs1 rest).2.2 = _
          rw [List.length_cons, List.range'_succ, List.map_cons]
          exact congrArg _ ih.2
      | error e =>
        refine ⟨?_, ?_⟩
        · exact OrphanBatch.fail fs _ o rest _ e (by rw [hd]) (by rw [hd]; exact ih.1)
        · show (idx + 1, total) :: (orphansLoop backup_dir total (idx + 1) fs1 rest).2.2 = _
          rw [List.length_cons, List.range'_succ, List.map_cons]
          exact congrArg _ ih.2

theorem oldVersionsLoop_spec (backup_dir : Option Str) (total : Nat)
    (duplicates : List ModGroup) :
    ∀ (idx : Nat) (fs : FS) (files : List ModFile),
      OldBatch backup_dir duplicates fs files
        ((oldVersionsLoop backup_dir total duplicates idx fs files).1,
         (oldVersionsLoop backup_dir total duplicates idx fs files).2.1) ∧
      (oldVersionsLoop backup_dir total duplicates idx fs files).2.2 =
        (List.range' (idx + 1) files.length).map fun k => (k, total)
  | idx, fs, [] => by
    refine ⟨OldBatch.nil fs, ?_⟩
    simp [oldVersionsLoop]
  | idx, fs, file :: rest => by
    simp only [oldVersionsLoop]
    cases hv : validate_deletion_safety fs duplicates file with
    | false =>
      have ih := oldVersionsLoop_spec backup_dir total duplicates (idx + 1) fs rest
      simp only [Bool.not_false, if_pos]
      refine ⟨OldBatch.guard fs _ file rest _ hv ih.1, ?_⟩
      show (idx + 1, total) :: (oldVersionsLoop backup_dir total duplicates (idx + 1) fs rest).2.2 = _
      rw [List.length_cons, List.range'_succ, List.map_cons]
      exact congrArg _ ih.2
    | true =>
      simp only [Bool.not_true, Bool.false_eq_true, if_false]
      cases hd : delete_mod_file fs file backup_dir with
      | mk fs1 r =>
        have ih := oldVersionsLoop_spec backup_dir total duplicates (idx + 1) fs1 rest
        cases r with
        | ok n =>
          have hn : n = file.size := delete_mod_file_ok_size hd
          subst hn
          refine ⟨?_, ?_⟩
          · exact OldBatch.ok fs _ file rest _ hv (by rw [hd]) (by rw [hd]; exact ih.1)
          · show (idx + 1, total) ::
                (oldVersionsLoop backup_dir total duplicates (idx + 1) fs1 rest).2.2 = _
            rw [List.length_cons, List.range'_succ, List.map_cons]
            exact congrArg _ ih.2
        | error e =>
          refine ⟨?_, ?_⟩
          · exact OldBatch.fail fs _ file rest _ e hv (by rw [hd]) (by rw [hd]; exact ih.1)
          · show (idx + 1, total) ::
                (oldVersionsLoop backup_dir total duplicates (idx + 1) fs1 rest).2.2 = _
            rw [List.length_cons, List.range'_succ, List.map_cons]
            exact congrArg _ ih.2

theorem OrphanBatch_counts {b : Option Str} {fs : FS} {orphans : List OrphanedMod}
    {out : FS × DeletionResult} (h : OrphanBatch b fs orphans out) :
    out.2.deleted_count + out.2.skipped.length = orphans.length ∧
    out.2.errors.length = out.2.skipped.length := by
  induction h with
  | nil fs => simp [DeletionResult.empty]
  | ok fs fs2 o rest res hdel hrest ih =>
    simp only [List.length_cons]
    obtain ⟨ih1, ih2⟩ := ih
    simp only at ih1 ih2 ⊢
    omega
  | fail fs fs2 o rest res e hdel hrest ih =>
    simp only [List.length_cons]
    obtain ⟨ih1, ih2⟩ := ih
    simp only [List.length_cons] at *
    omega

theorem OldBatch_counts {b : Option Str} {dups : List ModGroup} {fs : FS}
    {files : List ModFile} {out : FS × DeletionResult}
    (h : OldBatch b dups fs files out) :
    out.2.deleted_count + out.2.skipped.length = files.length ∧
    out.2.errors.length = out.2.skipped.length := by
  induction h with
  | nil fs => simp [DeletionResult.empty]
  | guard fs fs2 file rest res hv hrest ih =>
    obtain ⟨ih1, ih2⟩ := ih
    simp only [List.length_cons] at *
    omega
  | ok fs fs2 file rest res hv hdel hrest ih =>
    obtain ⟨ih1, ih2⟩ := ih
    simp only [List.length_cons] at *
    omega
  | fail fs fs2 file rest res e hv hdel hrest ih =>
    obtain ⟨ih1, ih2⟩ := ih
    simp only [List.length_cons] at *
    omega

/-- The filesystem state the per-file loop starts from: the backup
directory has been created when one was requested. -/
def afterMkdir (fs : FS) : Option Str → FS
  | some b => { fs with dirs := b :: fs.dirs }
  | none => fs


/-- C7: both deletion entry points process every file of the batch: each
per-file outcome is exactly one of (success: count incremented, file size
added) or (failure: name appended to `skipped`, one message appended to
`errors`), the loop continuing either way; the progress observer is
invoked once per file with counts starting at 1; and
`deleted_count + |skipped| = |batch|` with one error message per skip. -/
theorem deletion_batch_per_file (fs : FS) (orphans : List OrphanedMod)
    (dups : List ModGroup) (backup_dir : Option Str)
    (hmk : ∀ b, backup_dir = some b → b ∉ fs.mkdirFails) :
    OrphanBatch backup_dir (afterMkdir fs backup_dir) orphans
      ((delete_orphaned_mods fs orphans backup_dir).1,
       (delete_orphaned_mods fs orphans backup_dir).2.1) ∧
    (delete_orphaned_mods fs orphans backup_dir).2.2 =
      (List.range' 1 orphans.length).map (fun k => (k, orphans.length)) ∧
    (delete_orphaned_mods fs orphans backup_dir).2.1.deleted_count +
      (delete_orphaned_mods fs orphans backup_dir).2.1.skipped.length =
      orphans.length ∧
    (delete_orphaned_mods fs orphans backup_dir).2.1.errors.length =
      (delete_orphaned_mods fs orphans backup_dir).2.1.skipped.length ∧
    OldBatch backup_dir dups (afterMkdir fs backup_dir)
      ((dups.map fun g => g.files.take g.newest_idx).flatten)
      ((delete_old_versions fs dups backup_dir).1,
       (delete_old_versions fs dups backup_dir).2.1) ∧
    (delete_old_versions fs dups backup_dir).2.2 =
      (List.range' 1 ((dups.map fun g => g.files.take g.newest_idx).flatten).length).map
        (fun k => (k, ((dups.map fun g => g.files.take g.newest_idx).flatten).length)) ∧
    (delete_old_versions fs dups backup_dir).2.1.deleted_count +
      (delete_old_versions fs dups backup_dir).2.1.skipped.length =
      ((dups.map fun g => g.files.take g.newest_idx).flatten).length ∧
    (delete_old_versions fs dups backup_dir).2.1.errors.length =
      (delete_old_versions fs dups backup_dir).2.1.skipped.length := by
  have hmkc : ∀ b, backup_dir = some b → fs.mkdirFails.contains b = false := by
    intro b hb
    cases hc : fs.mkdirFails.contains b
    · rfl
    · exact absurd (contains_iff_mem.mp hc) (hmk b hb)
  have key1 : delete_orphaned_mods fs orphans backup_dir =
      orphansLoop backup_dir orphans.length 0 (afterMkdir fs backup_dir) orphans := by
    cases backup_dir with
    | none => rfl
    | some b => simp [delete_orphaned_mods, hmkc b rfl, afterMkdir, hmk b rfl]
  have key2 : delete_old_versions fs dups backup_dir =
      oldVersionsLoop backup_dir
        ((dups.map fun g => g.files.take g.newest_idx).flatten).length dups 0
        (afterMkdir fs backup_dir)
        ((dups.map fun g => g.files.take g.newest_idx).flatten) := by
    cases backup_dir with
    | none => rfl
    | some b => simp [delete_old_versions, hmkc b rfl, afterMkdir, hmk b rfl]
  rw [key1, key2]
  have s1 := orphansLoop_spec backup_dir orphans.length 0 (afterMkdir fs backup_dir) orphans
  have s2 := oldVersionsLoop_spec backup_dir
    ((dups.map fun g => g.files.take g.newest_idx).flatten).length dups 0
    (afterMkdir fs backup_dir) ((dups.map fun g => g.files.take g.newest_idx).flatten)
  have c1 := OrphanBatch_counts s1.1
  have c2 := OldBatch_counts s2.1
  exact ⟨s1.1, s1.2, c1.1, c1.2, s2.1, s2.2, c2.1, c2.2⟩

def fsW3 : FS :=
  { files := ["d/a.7z".data, "d/c.7z".data], locked := ["d/c.7z".data],
    renameFails := [], removeFails := [], mkdirFails := [], dirs := [] }

def mfW3a : ModFile :=
  { file_name := "a.7z".data, full_path := "d/a.7z".data, mod_name := "a".data,
    mod_id := "123".data, file_id := none, version := "1-0".data,
    timestamp := "1234567890".data, size := 5, is_patch := false }

def mfW3c : ModFile :=
  { file_name := "c.7z".data, full_path := "d/c.7z".data, mod_name := "c".data,
    mod_id := "124".data, file_id := none, version := "1-0".data,
    timestamp := "1234567891".data, size := 9, is_patch := false }

def orphsW : List OrphanedMod := [OrphanedMod.mk mfW3a, OrphanedMod.mk mfW3c]

theorem deletion_batch_per_file_witness :
    (delete_orphaned_mods fsW3 orphsW none).2.1.deleted_count +
      (delete_orphaned_mods fsW3 orphsW none).2.1.skipped.length =
      orphsW.length :=
  (deletion_batch_per_file fsW3 orphsW [] none
    (fun _ h => Option.noConfusion h)).2.2.1


/-! ## Claim C8 — effect of a successful backup move -/

theorem ne_append_meta (p : Str) : p ≠ p ++ ".meta".data := fun h => by
  have := congrArg List.length h
  simp at this

theorem pathJoin_meta (b n : Str) :
    pathJoin b (n ++ ".meta".data) = pathJoin b n ++ ".meta".data := by
  simp [pathJoin]

/-- C8 (amended): for a file that exists, is not locked, and whose move
succeeds, and whose backup destination paths differ from the file's own
path and its sidecar's path (in particular the backup directory is not
the file's own folder): after `delete_mod_file` with a backup directory
the file is gone from its source path and present flat under the backup
directory; an existing `.meta` sidecar is moved alongside unless its own
rename fails, which is swallowed; and no other path or filesystem field
changes. -/
theorem delete_mod_file_backup_effect (fs : FS) (file : ModFile) (b : Str)
    (hex : file.full_path ∈ fs.files)
    (hlock : file.full_path ∉ fs.locked)
    (hren : file.full_path ∉ fs.renameFails)
    (hb1 : pathJoin b file.file_name ≠ file.full_path)
    (hb2 : pathJoin b file.file_name ≠ file.full_path ++ ".meta".data)
    (hb3 : pathJoin b (file.file_name ++ ".meta".data) ≠ file.full_path) :
    (delete_mod_file fs file (some b)).2 = .ok file.size ∧
    file.full_path ∉ (delete_mod_file fs file (some b)).1.files ∧
    pathJoin b file.file_name ∈ (delete_mod_file fs file (some b)).1.files ∧
    (file.full_path ++ ".meta".data ∈ fs.files →
      file.full_path ++ ".meta".data ∉ fs.renameFails →
      pathJoin b (file.file_name ++ ".meta".data) ∈
        (delete_mod_file fs file (some b)).1.files ∧
      file.full_path ++ ".meta".data ∉ (delete_mod_file fs file (some b)).1.files) ∧
    (file.full_path ++ ".meta".data ∈ fs.files →
      file.full_path ++ ".meta".data ∈ fs.renameFails →
      file.full_path ++ ".meta".data ∈ (delete_mod_file fs file (some b)).1.files) ∧
    (∀ p, p ≠ file.full_path → p ≠ file.full_path ++ ".meta".data →
      p ≠ pathJoin b file.file_name →
      p ≠ pathJoin b (file.file_name ++ ".meta".data) →
      (p ∈ (delete_mod_file fs file (some b)).1.files ↔ p ∈ fs.files)) ∧
    (delete_mod_file fs file (some b)).1.locked = fs.locked ∧
    (delete_mod_file fs file (some b)).1.renameFails = fs.renameFails ∧
    (delete_mod_file fs file (some b)).1.removeFails = fs.removeFails ∧
    (delete_mod_file fs file (some b)).1.mkdirFails = fs.mkdirFails ∧
    (delete_mod_file fs file (some b)).1.dirs = fs.dirs := by
  have hMne : file.full_path ++ ".meta".data ≠ file.full_path :=
    (ne_append_meta file.full_path).symm
  have hMBK : file.full_path ++ ".meta".data ≠ pathJoin b file.file_name :=
    fun he => hb2 he.symm
  by_cases hm : file.full_path ++ ".meta".data ∈ fs.files
  · by_cases hmr : file.full_path ++ ".meta".data ∈ fs.renameFails
    · -- sidecar exists but its own rename fails; the failure is swallowed
      have hfinal : delete_mod_file fs file (some b) =
          ({ fs with files := pathJoin b file.file_name ::
              fs.files.filter (· ≠ file.full_path) }, .ok file.size) := by
        simp [delete_mod_file, is_file_locked, fsRename, hex, hlock, hren, hm, hmr,
          hMne, hMBK]
      rw [hfinal]
      refine ⟨rfl, ?_, ?_, ?_, ?_, ?_, rfl, rfl, rfl, rfl, rfl⟩
      · intro hmem
        rcases List.mem_cons.mp hmem with he | hmem2
        · exact hb1 he.symm
        · exact (of_decide_eq_true (List.mem_filter.mp hmem2).2) rfl
      · exact List.mem_cons_self _ _
      · intro _ hmr'
        exact absurd hmr hmr'
      · intro _ _
        exact List.mem_cons_of_mem _
          (List.mem_filter.mpr ⟨hm, decide_eq_true hMne⟩)
      · intro p hp1 hp2 hp3 hp4
        constructor
        · intro hmem
          rcases List.mem_cons.mp hmem with he | hmem2
          · exact absurd he hp3
          · exact (List.mem_filter.mp hmem2).1
        · exact fun hpf => List.mem_cons_of_mem _
            (List.mem_filter.mpr ⟨hpf, decide_eq_true hp1⟩)
    · -- sidecar exists and moves alongside the file
      have hBKMne : pathJoin b (file.file_name ++ ".meta".data) ≠
          file.full_path ++ ".meta".data := by
        rw [pathJoin_meta]
        intro he
        exact hb1 (List.append_cancel_right he)
      have hfinal : delete_mod_file fs file (some b) =
          ({ fs with files := pathJoin b (file.file_name ++ ".meta".data) ::
              ((pathJoin b file.file_name :: fs.files.filter (· ≠ file.full_path)).filter
                (· ≠ file.full_path ++ ".meta".data)) }, .ok file.size) := by
        simp [delete_mod_file, is_file_locked, fsRename, hex, hlock, hren, hm, hmr,
          hMne, hMBK]
      rw [hfinal]
      refine ⟨rfl, ?_, ?_, ?_, ?_, ?_, rfl, rfl, rfl, rfl, rfl⟩
      · intro hmem
        rcases List.mem_cons.mp hmem with he | hmem2
        · exact hb3 he.symm
        · rcases List.mem_cons.mp (List.mem_filter.mp hmem2).1 with he2 | hmem3
          · exact hb1 he2.symm
          · exact (of_decide_eq_true (List.mem_filter.mp hmem3).2) rfl
      · exact List.mem_cons_of_mem _
          (List.mem_filter.mpr ⟨List.mem_cons_self _ _, decide_eq_true hb2⟩)
      · intro _ _
        refine ⟨List.mem_cons_self _ _, ?_⟩
        intro hmem
        rcases List.mem_cons.mp hmem with he | hmem2
        · exact hBKMne he.symm
        · exact (of_decide_eq_true (List.mem_filter.mp hmem2).2) rfl
      · intro _ hmr'
        exact absurd hmr' hmr
      · intro p hp1 hp2 hp3 hp4
        constructor
        · intro hmem
          rcases List.mem_cons.mp hmem with he | hmem2
          · exact absurd he hp4
          · rcases List.mem_cons.mp (List.mem_filter.mp hmem2).1 with he2 | hmem3
            · exact absurd he2 hp3
            · exact (List.mem_filter.mp hmem3).1
        · intro hpf
          exact List.mem_cons_of_mem _ (List.mem_filter.mpr
            ⟨List.mem_cons_of_mem _ (List.mem_filter.mpr ⟨hpf, decide_eq_true hp1⟩),
             decide_eq_true hp2⟩)
  · -- no sidecar
    have hfinal : delete_mod_file fs file (some b) =
        ({ fs with files := pathJoin b file.file_name ::
            fs.files.filter (· ≠ file.full_path) }, .ok file.size) := by
      simp [delete_mod_file, is_file_locked, fsRename, hex, hlock, hren, hm, hMne, hMBK]
    rw [hfinal]
    refine ⟨rfl, ?_, ?_, ?_, ?_, ?_, rfl, rfl, rfl, rfl, rfl⟩
    · intro hmem
      rcases List.mem_cons.mp hmem with he | hmem2
      · exact hb1 he.symm
      · exact (of_decide_eq_true (List.mem_filter.mp hmem2).2) rfl
    · exact List.mem_cons_self _ _
    · intro hm' _
      exact absurd hm' hm
    · intro hm' _
      exact absurd hm' hm
    · intro p hp1 hp2 hp3 hp4
      constructor
      · intro hmem
        rcases List.mem_cons.mp hmem with he | hmem2
        · exact absurd he hp3
        · exact (List.mem_filter.mp hmem2).1
      · exact fun hpf => List.mem_cons_of_mem _
          (List.mem_filter.mpr ⟨hpf, decide_eq_true hp1⟩)

def fsD2 : FS :=
  { files := ["d/a.7z".data, "d/a.7z.meta".data], locked := [], renameFails := [],
    removeFails := [], mkdirFails := [], dirs := [] }

def fileD2 : ModFile :=
  { file_name := "a.7z".data, full_path := "d/a.7z".data, mod_name := "a".data,
    mod_id := "123".data, file_id := none, version := "1-0".data,
    timestamp := "1234567890".data, size := 7, is_patch := false }

theorem delete_mod_file_backup_effect_witness :
    pathJoin "bak".data fileD2.file_name ∈
      (delete_mod_file fsD2 fileD2 (some "bak".data)).1.files :=
  (delete_mod_file_backup_effect fsD2 fileD2 "bak".data (by decide) (by decide)
    (by decide) (by decide) (by decide) (by decide)).2.2.1

def fsD : FS :=
  { files := ["d/a-123-1-0-1234567890.7z".data], locked := [], renameFails := [],
    removeFails := [], mkdirFails := [], dirs := [] }

def fileD : ModFile :=
  { file_name := "a-123-1-0-1234567890.7z".data,
    full_path := "d/a-123-1-0-1234567890.7z".data, mod_name := "a".data,
    mod_id := "123".data, file_id := none, version := "1-0".data,
    timestamp := "1234567890".data, size := 7, is_patch := false }

/-- C8 counterexample: when the backup directory is the file's own
folder, the move is a rename onto the file's own path; it succeeds, yet
the file still exists at its source path afterwards, contradicting the
claim as stated. -/
theorem delete_mod_file_backup_self_counterexample :
    (delete_mod_file fsD fileD (some "d".data)).2 = .ok fileD.size ∧
    fileD.full_path ∈ (delete_mod_file fsD fileD (some "d".data)).1.files :=
  ⟨rfl, by decide⟩


end WLC

